import Mathlib

/-!
Shallow embedding of the SAT solver in `src/sat.py` (class `SatSolver`).

Python dictionaries (`Dict[int, bool]`) are modelled as association lists
(`List (Nat × Bool)`): `alookup` is `d[k]` / `k in d`, `ainsert` is
`d[k] = v` (update in place when the key is present, append otherwise),
`aerase` is `del d[k]`.  Python's three-valued clause evaluation
(`True` / `None` / `False`) is modelled as `Option Bool`
(`some true` / `none` / `some false`).  The mutable dictionary threaded
through the recursive `backtrack` helpers is modelled by explicit state
passing, and the recursion itself by a fuel parameter (structural, so all
definitions compute); a fuel of `n_vars + 1` is proved sufficient below.
A Python function that can raise (`sat_bruteforce` raises `KeyError` when
it evaluates a literal whose variable is unbound) returns `Option`.
-/

namespace SatSolver

/-- A Python `Dict[int, bool]` as an association list. -/
abbrev Assignment := List (Nat × Bool)

/-- Dictionary lookup: `assignment[var]` / `var in assignment`. -/
def alookup : Assignment → Nat → Option Bool
  | [], _ => none
  | p :: rest, k => if p.1 = k then some p.2 else alookup rest k

/-- Dictionary write `assignment[k] = v`: update in place if present, append otherwise. -/
def ainsert (a : Assignment) (k : Nat) (v : Bool) : Assignment :=
  if (alookup a k).isSome then a.map (fun p => if p.1 = k then (k, v) else p) else a ++ [(k, v)]

/-- Dictionary deletion `del assignment[k]`. -/
def aerase (a : Assignment) (k : Nat) : Assignment := a.filter (fun p => decide (p.1 ≠ k))

/-- The keys of the dictionary. -/
def akeys (a : Assignment) : List Nat := a.map (fun p => p.1)

/-- The Python test `(lit > 0 and val) or (lit < 0 and not val)`:
the literal `lit` is satisfied by value `val` of its variable. -/
def litSat (lit : Int) (val : Bool) : Bool :=
  (decide (0 < lit) && val) || (decide (lit < 0) && !val)

/-- The loop body of `eval_clause`, with the `has_unassigned` accumulator. -/
def evalClauseAux (a : Assignment) : List Int → Bool → Option Bool
  | [], hasUnassigned => if hasUnassigned then none else some false
  | lit :: rest, hasUnassigned =>
    match alookup a lit.natAbs with
    | some val => if litSat lit val then some true else evalClauseAux a rest hasUnassigned
    | none => evalClauseAux a rest true

/-- `eval_clause(clause, assignment)` (identical in `sat_backtracking` and
`sat_bestcase`): three-valued clause evaluation, `some true` = satisfied,
`some false` = all literals bound and none satisfied, `none` = undetermined. -/
def eval_clause (clause : List Int) (a : Assignment) : Option Bool :=
  evalClauseAux a clause false

/-- Python's `res is True`. -/
def isTrue3 : Option Bool → Bool
  | some true => true
  | _ => false

/-- Python's `res is False`. -/
def isFalse3 : Option Bool → Bool
  | some false => true
  | _ => false

/-- `has_conflict(assignment)`: some clause evaluates to `False`. -/
def has_conflict (clauses : List (List Int)) (a : Assignment) : Bool :=
  clauses.any (fun c => isFalse3 (eval_clause c a))

/-- `all_clauses_satisfied(assignment)`: the clause list is empty or every
clause evaluates to `True`. -/
def all_clauses_satisfied (clauses : List (List Int)) (a : Assignment) : Bool :=
  if clauses.isEmpty then true else clauses.all (fun c => isTrue3 (eval_clause c a))

/-- The `next_var` selection loop: lowest variable in `1..n_vars` not in the
assignment. -/
def next_var (n : Nat) (a : Assignment) : Option Nat :=
  (List.range' 1 n).find? (fun v => (alookup a v).isNone)

/-- `sat_backtracking`'s success path: `full_assign = assignment.copy()` then
every missing variable of `1..n_vars` is appended with value `False`. -/
def full_assign (n : Nat) (a : Assignment) : Assignment :=
  a ++ ((List.range' 1 n).filter (fun v => (alookup a v).isNone)).map (fun v => (v, false))

/-- `fill_assignment(assignment)` in `sat_bestcase`: the dict comprehension
`{v: assignment.get(v, False) for v in range(1, n_vars + 1)}`. -/
def fill_assignment (n : Nat) (a : Assignment) : Assignment :=
  (List.range' 1 n).map (fun v => (v, (alookup a v).getD false))

/-- `count_satisfied(assignment)` in `sat_bestcase`. -/
def count_satisfied (clauses : List (List Int)) (a : Assignment) : Nat :=
  clauses.countP (fun c => isTrue3 (eval_clause c a))

/-- The recursive `backtrack` helper of `sat_backtracking`.  The result is
`((sat, sol), assignmentAfter)` where `assignmentAfter` is the state of the
mutable dictionary when the call returns; `none` means the fuel ran out
(proved unreachable for fuel `> ` the number of unassigned variables). -/
def btRun (n : Nat) (clauses : List (List Int)) :
    Nat → Assignment → Option ((Bool × Assignment) × Assignment)
  | 0, _ => none
  | fuel + 1, a =>
    if has_conflict clauses a then some ((false, []), a)
    else if all_clauses_satisfied clauses a then some ((true, full_assign n a), a)
    else
      match next_var n a with
      | none => some ((false, []), a)
      | some v =>
        match btRun n clauses fuel (ainsert a v true) with
        | none => none
        | some ((sat1, sol1), a1) =>
          if sat1 then some ((true, sol1), a1)
          else
            match btRun n clauses fuel (ainsert (aerase a1 v) v false) with
            | none => none
            | some ((sat2, sol2), a2) =>
              if sat2 then some ((true, sol2), a2)
              else some ((false, []), aerase a2 v)

/-- `sat_backtracking(n_vars, clauses)`. -/
def sat_backtracking (n : Nat) (clauses : List (List Int)) : Bool × Assignment :=
  match btRun n clauses (n + 1) [] with
  | some ((true, sol), _) => (true, sol)
  | _ => (false, [])

/-- The inner literal loop of `evaluate_res` in `sat_bruteforce`:
`assignment[var]` raises `KeyError` (modelled `none`) when the variable is
unbound; `some true` = some literal satisfied (loop `break`), `some false` =
loop finished with `satisfied` still `False`. -/
def checkClause (a : Assignment) : List Int → Option Bool
  | [] => some false
  | lit :: rest =>
    match alookup a lit.natAbs with
    | none => none
    | some value => if litSat lit value then some true else checkClause a rest

/-- `evaluate_res(assignment)` in `sat_bruteforce`: binary evaluation of every
clause at a leaf; `none` = a `KeyError` escaped. -/
def evaluate_res (a : Assignment) : List (List Int) → Option (Bool × Assignment)
  | [] => some (true, a)
  | c :: rest =>
    match checkClause a c with
    | none => none
    | some true => evaluate_res a rest
    | some false => some (false, [])

/-- The recursive `dfs` helper of `sat_bruteforce`, threading the mutable
dictionary `res`; tries `False` before `True` at each variable index. -/
def dfs (n : Nat) (clauses : List (List Int)) :
    Nat → Nat → Assignment → Option ((Bool × Assignment) × Assignment)
  | 0, _, _ => none
  | fuel + 1, i, res =>
    if i > n then (evaluate_res res clauses).map (fun r => (r, res))
    else
      match dfs n clauses fuel (i + 1) (ainsert res i false) with
      | none => none
      | some ((ok, sol), res1) =>
        if ok then some ((true, sol), res1)
        else
          match dfs n clauses fuel (i + 1) (ainsert res1 i true) with
          | none => none
          | some ((ok2, sol2), res2) =>
            if ok2 then some ((true, sol2), res2)
            else some ((false, []), res2)

/-- `sat_bruteforce(n_vars, clauses)`; `none` = an uncaught `KeyError`. -/
def sat_bruteforce (n : Nat) (clauses : List (List Int)) : Option (Bool × Assignment) :=
  (dfs n clauses (n + 1) 1 []).map (fun r => r.1)

/-- The nonlocal mutable state of `sat_bestcase`: `best_assignment`,
`best_score` (a Python int, initially `-1`) and `solution`. -/
structure BCState where
  best_assignment : Assignment
  best_score : Int
  solution : Option Assignment
  deriving Repr, DecidableEq

/-- `record_candidate(candidate)` in `sat_bestcase`: `filled` is
`fill_assignment candidate` and `score` is `count_satisfied filled`. -/
def record_candidate (n : Nat) (clauses : List (List Int)) (candidate : Assignment)
    (s : BCState) : BCState :=
  if (count_satisfied clauses (fill_assignment n candidate) : Int) > s.best_score then
    { s with best_assignment := fill_assignment n candidate,
             best_score := (count_satisfied clauses (fill_assignment n candidate) : Int) }
  else s

/-- The recursive `backtrack` helper of `sat_bestcase`: result is
`(found, assignmentAfter, state)`. -/
def bcRun (n : Nat) (clauses : List (List Int)) :
    Nat → Assignment → BCState → Option (Bool × Assignment × BCState)
  | 0, _, _ => none
  | fuel + 1, a, s =>
    if has_conflict clauses a then some (false, a, record_candidate n clauses a s)
    else if all_clauses_satisfied clauses a then
      let solved := fill_assignment n a
      some (true, a,
        { best_assignment := solved, best_score := (clauses.length : Int),
          solution := some solved })
    else if a.length = n then some (false, a, record_candidate n clauses a s)
    else
      match next_var n a with
      | none => some (false, a, record_candidate n clauses a s)
      | some v =>
        match bcRun n clauses fuel (ainsert a v true) s with
        | none => none
        | some (found1, a1, s1) =>
          if found1 then some (true, a1, s1)
          else
            match bcRun n clauses fuel (ainsert (aerase a1 v) v false) s1 with
            | none => none
            | some (found2, a2, s2) =>
              if found2 then some (true, a2, s2)
              else some (false, aerase a2 v, s2)

/-- `sat_bestcase(n_vars, clauses)`. -/
def sat_bestcase (n : Nat) (clauses : List (List Int)) : Bool × Assignment :=
  match bcRun n clauses (n + 1) [] ⟨[], -1, none⟩ with
  | none => (false, [])
  | some (found, _, s) =>
    match found, s.solution with
    | true, some sol => (true, sol)
    | _, _ =>
      (false,
        if s.best_assignment.isEmpty then (List.range' 1 n).map (fun v => (v, false))
        else s.best_assignment)

/-- `sat_simple(n_vars, clauses)`: the body is `pass`, so the call returns
Python's `None` instead of a `(satisfiable, assignment)` pair. -/
def sat_simple (_n : Nat) (_clauses : List (List Int)) : Option (Bool × Assignment) :=
  none

/-! Specification-side notions used to state the claims. -/

/-- A complete assignment, given as a function on variable indices, satisfies
a clause: some literal's variable value matches the literal's polarity. -/
def clauseSatF (f : Nat → Bool) (c : List Int) : Bool :=
  c.any (fun lit => litSat lit (f lit.natAbs))

/-- A complete assignment satisfies every clause. -/
def allSatF (f : Nat → Bool) (clauses : List (List Int)) : Bool :=
  clauses.all (clauseSatF f)

/-- Number of clauses a complete assignment satisfies. -/
def countSatF (f : Nat → Bool) (clauses : List (List Int)) : Nat :=
  clauses.countP (clauseSatF f)

/-- All `2 ^ n` complete assignments of variables `1..n` as boolean lists
(`var k` at position `k - 1`), in the order explored by `sat_bruteforce`'s
depth-first recursion: ascending variable index, `false` before `true`. -/
def enumA : Nat → List (List Bool)
  | 0 => [[]]
  | n + 1 => ((enumA n).map (fun l => false :: l)) ++ ((enumA n).map (fun l => true :: l))

/-- The complete assignment (as a function) denoted by a boolean list:
variable `k` gets the list's entry `k - 1`, defaulting to `false`. -/
def listToFun (l : List Bool) (k : Nat) : Bool := l.getD (k - 1) false

/-- The all-false complete assignment dictionary over `1..n`. -/
def allFalse (n : Nat) : Assignment := (List.range' 1 n).map (fun v => (v, false))

/-- The dictionary is a complete assignment: every variable of `1..n` is
bound, and every key is a variable of `1..n`. -/
def isComplete (n : Nat) (a : Assignment) : Bool :=
  ((List.range' 1 n).all (fun v => (alookup a v).isSome)) &&
    (a.all (fun p => decide (1 ≤ p.1) && decide (p.1 ≤ n)))

/-- The maximum number of simultaneously satisfiable clauses, over all
complete assignments. -/
def maxScore (n : Nat) (clauses : List (List Int)) : Nat :=
  ((enumA n).map (fun l => countSatF (listToFun l) clauses)).foldr Nat.max 0

/-- Soundness of a reported satisfying assignment `A`: `A` is complete and
every clause contains a literal whose variable's value in `A` matches the
literal's polarity. -/
def soundRes (n : Nat) (clauses : List (List Int)) (A : Assignment) : Prop :=
  isComplete n A = true ∧
    ∀ c ∈ clauses, ∃ lit ∈ c, ∃ b, alookup A lit.natAbs = some b ∧ litSat lit b = true

/-- Every literal of every clause names a variable in `1..n`. -/
def inRange (n : Nat) (clauses : List (List Int)) : Prop :=
  ∀ c ∈ clauses, ∀ lit ∈ c, 1 ≤ lit.natAbs ∧ lit.natAbs ≤ n

/-- Number of variables of `1..n` unassigned in `a` (the recursion measure). -/
def uc (n : Nat) (a : Assignment) : Nat :=
  ((List.range' 1 n).filter (fun v => (alookup a v).isNone)).length

/-- Invariant of the best-candidate tracker: either nothing was recorded yet
(score `-1`, empty dict), or the stored score is the score of the stored
complete assignment. -/
def goodState (n : Nat) (cs : List (List Int)) (s : BCState) : Prop :=
  (s.best_score = -1 ∧ s.best_assignment = []) ∨
    (s.best_score = (count_satisfied cs s.best_assignment : Int) ∧
      isComplete n s.best_assignment = true)

/-- The complete assignment read off at a `dfs` node: variables below `i` from
the dictionary (defaulting to `false`), variables from `i` on from the suffix
`s`. -/
def extFun (res : Assignment) (i : Nat) (s : List Bool) : Nat → Bool :=
  fun k => if k < i then (alookup res k).getD false else s.getD (k - i) false

/-! Dictionary lemmas. -/

theorem alookup_append (a b : Assignment) (k : Nat) :
    alookup (a ++ b) k = (alookup a k).or (alookup b k) := by
  induction a with
  | nil => simp [alookup]
  | cons p rest ih =>
    by_cases h : p.1 = k <;> simp [alookup, h, ih]

theorem isSome_alookup_iff_mem (a : Assignment) (k : Nat) :
    (alookup a k).isSome = true ↔ k ∈ akeys a := by
  induction a with
  | nil => simp [alookup, akeys]
  | cons p rest ih =>
    rw [akeys, List.map_cons, List.mem_cons]
    by_cases h : p.1 = k
    · simp [alookup, h]
    · rw [alookup]
      simp only [h, if_false]
      rw [ih]
      constructor
      · intro hm
        exact Or.inr hm
      · rintro (hm | hm)
        · exact absurd hm.symm h
        · exact hm

theorem alookup_eq_none_iff (a : Assignment) (k : Nat) :
    alookup a k = none ↔ k ∉ akeys a := by
  rw [← isSome_alookup_iff_mem]
  cases alookup a k <;> simp

theorem mem_akeys_of_mem {p : Nat × Bool} {a : Assignment} (h : p ∈ a) : p.1 ∈ akeys a :=
  List.mem_map_of_mem _ h

theorem key_ne_of_none {a : Assignment} {k : Nat} (h : alookup a k = none) :
    ∀ p ∈ a, p.1 ≠ k := by
  intro p hp hpk
  exact ((alookup_eq_none_iff a k).1 h) (hpk ▸ mem_akeys_of_mem hp)

theorem ainsert_of_none {a : Assignment} {k : Nat} (h : alookup a k = none) (v : Bool) :
    ainsert a k v = a ++ [(k, v)] := by
  simp [ainsert, h]

theorem alookup_ainsert_self (a : Assignment) (k : Nat) (v : Bool) :
    alookup (ainsert a k v) k = some v := by
  unfold ainsert
  split
  · rename_i h
    induction a with
    | nil => simp [alookup] at h
    | cons p rest ih =>
      by_cases hpk : p.1 = k
      · simp [alookup, hpk]
      · simp only [alookup, hpk, if_false] at h
        simp [alookup, hpk, ih h]
  · rename_i h
    rw [alookup_append]
    rw [Option.not_isSome_iff_eq_none] at h
    simp [h, alookup]

theorem alookup_map_update (a : Assignment) (k : Nat) (v : Bool) {k' : Nat} (h : k' ≠ k) :
    alookup (a.map (fun p => if p.1 = k then (k, v) else p)) k' = alookup a k' := by
  induction a with
  | nil => simp [alookup]
  | cons p rest ih =>
    by_cases hpk : p.1 = k
    · rw [List.map_cons, if_pos hpk, alookup, alookup]
      have h1 : ¬(k = k') := fun hh => h hh.symm
      have h2 : ¬(p.1 = k') := by rw [hpk]; exact h1
      simp only [h1, h2, if_false]
      exact ih
    · rw [List.map_cons, if_neg hpk, alookup, alookup]
      by_cases hpk' : p.1 = k'
      · simp [hpk']
      · simp only [hpk', if_false]
        exact ih

theorem alookup_ainsert_ne (a : Assignment) (k : Nat) (v : Bool) {k' : Nat} (h : k' ≠ k) :
    alookup (ainsert a k v) k' = alookup a k' := by
  unfold ainsert
  split
  · exact alookup_map_update a k v h
  · rw [alookup_append]
    cases ha : alookup a k' with
    | some b => simp
    | none =>
      have : ¬(k = k') := fun hh => h hh.symm
      simp [alookup, this]

theorem aerase_of_none {a : Assignment} {k : Nat} (h : alookup a k = none) :
    aerase a k = a := by
  rw [aerase, List.filter_eq_self]
  intro p hp
  simpa using key_ne_of_none h p hp

theorem aerase_ainsert {a : Assignment} {k : Nat} (h : alookup a k = none) (v : Bool) :
    aerase (ainsert a k v) k = a := by
  rw [ainsert_of_none h, aerase, List.filter_append]
  have h1 : List.filter (fun p => decide (p.1 ≠ k)) a = a := by
    rw [List.filter_eq_self]
    intro p hp
    simpa using key_ne_of_none h p hp
  rw [h1]
  simp

theorem akeys_append (a b : Assignment) : akeys (a ++ b) = akeys a ++ akeys b := by
  simp [akeys]

theorem keysIn_ainsert {n : Nat} {a : Assignment} {k : Nat}
    (hk : ∀ p ∈ a, 1 ≤ p.1 ∧ p.1 ≤ n) (h : alookup a k = none)
    (h1 : 1 ≤ k) (h2 : k ≤ n) (v : Bool) :
    ∀ p ∈ ainsert a k v, 1 ≤ p.1 ∧ p.1 ≤ n := by
  rw [ainsert_of_none h]
  intro p hp
  rcases List.mem_append.1 hp with hp | hp
  · exact hk p hp
  · simp at hp
    subst hp
    exact ⟨h1, h2⟩

theorem nodup_ainsert {a : Assignment} {k : Nat}
    (hnd : (akeys a).Nodup) (h : alookup a k = none) (v : Bool) :
    (akeys (ainsert a k v)).Nodup := by
  rw [ainsert_of_none h, akeys_append]
  have hk : k ∉ akeys a := (alookup_eq_none_iff a k).1 h
  simp only [akeys, List.map_cons, List.map_nil]
  rw [List.nodup_append]
  refine ⟨hnd, List.nodup_singleton _, ?_⟩
  intro x hx
  simp only [List.mem_singleton]
  intro hxk
  exact hk (hxk ▸ hx)

theorem length_ainsert_of_none {a : Assignment} {k : Nat} (h : alookup a k = none) (v : Bool) :
    (ainsert a k v).length = a.length + 1 := by
  rw [ainsert_of_none h]
  simp

/-! Lemmas about `next_var`. -/

theorem next_var_some {n : Nat} {a : Assignment} {v : Nat} (h : next_var n a = some v) :
    alookup a v = none ∧ 1 ≤ v ∧ v ≤ n := by
  have hmem := List.mem_of_find?_eq_some h
  have hp := List.find?_some h
  rw [List.mem_range'_1] at hmem
  refine ⟨?_, hmem.1, by omega⟩
  simpa [Option.isNone_iff_eq_none] using hp

theorem next_var_eq_none_iff {n : Nat} {a : Assignment} :
    next_var n a = none ↔ ∀ v, 1 ≤ v → v ≤ n → (alookup a v).isSome = true := by
  rw [next_var, List.find?_eq_none]
  constructor
  · intro h v h1 h2
    have hthis := h v (by rw [List.mem_range'_1]; omega)
    simp only at hthis
    cases hav : alookup a v with
    | none => rw [hav] at hthis; simp at hthis
    | some b => simp
  · intro h x hx
    rw [List.mem_range'_1] at hx
    have hs := h x hx.1 (by omega)
    intro hno
    rw [Option.isNone_iff_eq_none] at hno
    rw [hno] at hs
    simp at hs

theorem length_eq_of_next_var_none {n : Nat} {a : Assignment}
    (hnd : (akeys a).Nodup) (hk : ∀ p ∈ a, 1 ≤ p.1 ∧ p.1 ≤ n)
    (h : next_var n a = none) : a.length = n := by
  have hsub : akeys a ⊆ List.range' 1 n := by
    intro x hx
    rcases List.mem_map.1 hx with ⟨p, hp, hpx⟩
    have := hk p hp
    rw [List.mem_range'_1]
    omega
  have hsup : List.range' 1 n ⊆ akeys a := by
    intro x hx
    rw [List.mem_range'_1] at hx
    have := (next_var_eq_none_iff.1 h) x hx.1 (by omega)
    exact (isSome_alookup_iff_mem a x).1 this
  have hlen : a.length = (akeys a).length := by simp [akeys]
  have h1 : (akeys a).toFinset = (List.range' 1 n).toFinset := by
    apply Finset.Subset.antisymm
    · intro x hx
      rw [List.mem_toFinset] at hx ⊢
      exact hsub hx
    · intro x hx
      rw [List.mem_toFinset] at hx ⊢
      exact hsup hx
  have h2 : (akeys a).toFinset.card = (akeys a).length := List.toFinset_card_of_nodup hnd
  have h3 : (List.range' 1 n).toFinset.card = n := by
    rw [List.toFinset_card_of_nodup (List.nodup_range' 1 n)]
    simp
  have h4 : (akeys a).toFinset.card = n := by rw [h1, h3]
  omega

theorem next_var_none_of_length_eq {n : Nat} {a : Assignment}
    (hnd : (akeys a).Nodup) (hk : ∀ p ∈ a, 1 ≤ p.1 ∧ p.1 ≤ n)
    (h : a.length = n) : next_var n a = none := by
  have hsub : (akeys a).toFinset ⊆ (List.range' 1 n).toFinset := by
    intro x hx
    rw [List.mem_toFinset] at hx ⊢
    rcases List.mem_map.1 hx with ⟨p, hp, hpx⟩
    have := hk p hp
    rw [List.mem_range'_1]
    omega
  have h2 : (akeys a).toFinset.card = (akeys a).length := List.toFinset_card_of_nodup hnd
  have h3 : (List.range' 1 n).toFinset.card = n := by
    rw [List.toFinset_card_of_nodup (List.nodup_range' 1 n)]
    simp
  have hlen : (akeys a).length = n := by simp [akeys, h]
  have heq : (akeys a).toFinset = (List.range' 1 n).toFinset :=
    Finset.eq_of_subset_of_card_le hsub (by omega)
  rw [next_var_eq_none_iff]
  intro v h1 hv
  rw [isSome_alookup_iff_mem]
  have : v ∈ (List.range' 1 n).toFinset := by
    rw [List.mem_toFinset, List.mem_range'_1]
    omega
  rw [← heq, List.mem_toFinset] at this
  exact this

/-! Clause-evaluation lemmas. -/

theorem isTrue3_iff (o : Option Bool) : isTrue3 o = true ↔ o = some true := by
  cases o with
  | none => simp [isTrue3]
  | some b => cases b <;> simp [isTrue3]

theorem isFalse3_iff (o : Option Bool) : isFalse3 o = true ↔ o = some false := by
  cases o with
  | none => simp [isFalse3]
  | some b => cases b <;> simp [isFalse3]

theorem evalClauseAux_cons_some {a : Assignment} {lit : Int} {val : Bool}
    (hl : alookup a lit.natAbs = some val) (rest : List Int) (b : Bool) :
    evalClauseAux a (lit :: rest) b =
      if litSat lit val = true then some true else evalClauseAux a rest b := by
  rw [evalClauseAux, hl]

theorem evalClauseAux_cons_none {a : Assignment} {lit : Int}
    (hl : alookup a lit.natAbs = none) (rest : List Int) (b : Bool) :
    evalClauseAux a (lit :: rest) b = evalClauseAux a rest true := by
  rw [evalClauseAux, hl]

theorem evalClauseAux_some_true_iff (a : Assignment) (c : List Int) (b : Bool) :
    evalClauseAux a c b = some true ↔
      ∃ lit ∈ c, ∃ v, alookup a lit.natAbs = some v ∧ litSat lit v = true := by
  induction c generalizing b with
  | nil => cases b <;> simp [evalClauseAux]
  | cons lit rest ih =>
    cases hl : alookup a lit.natAbs with
    | none =>
      rw [evalClauseAux_cons_none hl, ih]
      constructor
      · rintro ⟨l, hl2, v, hv, hs⟩
        exact ⟨l, List.mem_cons_of_mem _ hl2, v, hv, hs⟩
      · rintro ⟨l, hl2, v, hv, hs⟩
        rcases List.mem_cons.1 hl2 with rfl | hm
        · rw [hl] at hv; cases hv
        · exact ⟨l, hm, v, hv, hs⟩
    | some val =>
      rw [evalClauseAux_cons_some hl]
      by_cases hs : litSat lit val = true
      · rw [if_pos hs]
        constructor
        · intro _
          exact ⟨lit, List.mem_cons_self _ _, val, hl, hs⟩
        · intro _
          rfl
      · rw [if_neg hs, ih]
        have hs' : litSat lit val = false := by
          revert hs; cases litSat lit val <;> simp
        constructor
        · rintro ⟨l, hl2, v, hv, hsv⟩
          exact ⟨l, List.mem_cons_of_mem _ hl2, v, hv, hsv⟩
        · rintro ⟨l, hl2, v, hv, hsv⟩
          rcases List.mem_cons.1 hl2 with rfl | hm
          · rw [hl] at hv
            injection hv with hv'
            subst hv'
            rw [hsv] at hs'
            cases hs'
          · exact ⟨l, hm, v, hv, hsv⟩

theorem eval_clause_some_true_iff (c : List Int) (a : Assignment) :
    eval_clause c a = some true ↔
      ∃ lit ∈ c, ∃ v, alookup a lit.natAbs = some v ∧ litSat lit v = true :=
  evalClauseAux_some_true_iff a c false

theorem evalClauseAux_some_false_iff (a : Assignment) (c : List Int) (b : Bool) :
    evalClauseAux a c b = some false ↔
      b = false ∧ ∀ lit ∈ c, ∃ v, alookup a lit.natAbs = some v ∧ litSat lit v = false := by
  induction c generalizing b with
  | nil => cases b <;> simp [evalClauseAux]
  | cons lit rest ih =>
    cases hl : alookup a lit.natAbs with
    | none =>
      rw [evalClauseAux_cons_none hl, ih]
      constructor
      · rintro ⟨h1, _⟩
        cases h1
      · rintro ⟨hb, hall⟩
        rcases hall lit (List.mem_cons_self _ _) with ⟨v, hv, _⟩
        rw [hl] at hv
        cases hv
    | some val =>
      rw [evalClauseAux_cons_some hl]
      by_cases hs : litSat lit val = true
      · rw [if_pos hs]
        constructor
        · intro h
          cases h
        · rintro ⟨hb, hall⟩
          rcases hall lit (List.mem_cons_self _ _) with ⟨v, hv, hsv⟩
          rw [hl] at hv
          injection hv with hv'
          subst hv'
          rw [hs] at hsv
          cases hsv
      · rw [if_neg hs, ih]
        have hs' : litSat lit val = false := by
          revert hs; cases litSat lit val <;> simp
        constructor
        · rintro ⟨hb, hall⟩
          refine ⟨hb, ?_⟩
          intro l hl2
          rcases List.mem_cons.1 hl2 with rfl | hm
          · exact ⟨val, hl, hs'⟩
          · exact hall l hm
        · rintro ⟨hb, hall⟩
          exact ⟨hb, fun l hm => hall l (List.mem_cons_of_mem _ hm)⟩

theorem eval_clause_some_false_iff (c : List Int) (a : Assignment) :
    eval_clause c a = some false ↔
      ∀ lit ∈ c, ∃ v, alookup a lit.natAbs = some v ∧ litSat lit v = false := by
  rw [eval_clause, evalClauseAux_some_false_iff]
  simp

theorem eval_clause_true_mono {a a' : Assignment}
    (hext : ∀ k v, alookup a k = some v → alookup a' k = some v)
    {c : List Int} (h : eval_clause c a = some true) : eval_clause c a' = some true := by
  rw [eval_clause_some_true_iff] at h ⊢
  rcases h with ⟨l, hm, v, hv, hs⟩
  exact ⟨l, hm, v, hext _ _ hv, hs⟩

theorem eval_clause_false_mono {a a' : Assignment}
    (hext : ∀ k v, alookup a k = some v → alookup a' k = some v)
    {c : List Int} (h : eval_clause c a = some false) : eval_clause c a' = some false := by
  rw [eval_clause_some_false_iff] at h ⊢
  intro l hm
  rcases h l hm with ⟨v, hv, hs⟩
  exact ⟨v, hext _ _ hv, hs⟩

theorem eval_clause_of_assigned {a : Assignment} {c : List Int}
    (h : ∀ lit ∈ c, (alookup a lit.natAbs).isSome = true) :
    eval_clause c a = some (clauseSatF (fun k => (alookup a k).getD false) c) := by
  rw [eval_clause, clauseSatF]
  induction c with
  | nil => simp [evalClauseAux]
  | cons lit rest ih =>
    cases hl : alookup a lit.natAbs with
    | none =>
      have := h lit (List.mem_cons_self _ _)
      rw [hl] at this
      cases this
    | some val =>
      rw [evalClauseAux_cons_some hl]
      by_cases hs : litSat lit val = true
      · rw [if_pos hs]
        simp [List.any_cons, hl, hs]
      · have hs' : litSat lit val = false := by
          revert hs; cases litSat lit val <;> simp
        rw [if_neg hs, ih (fun l hm => h l (List.mem_cons_of_mem _ hm))]
        simp [List.any_cons, hl, hs']

theorem has_conflict_iff (clauses : List (List Int)) (a : Assignment) :
    has_conflict clauses a = true ↔ ∃ c ∈ clauses, eval_clause c a = some false := by
  rw [has_conflict, List.any_eq_true]
  constructor
  · rintro ⟨c, hc, hf⟩
    exact ⟨c, hc, (isFalse3_iff _).1 hf⟩
  · rintro ⟨c, hc, hf⟩
    exact ⟨c, hc, (isFalse3_iff _).2 hf⟩

theorem has_conflict_eq_false_iff (clauses : List (List Int)) (a : Assignment) :
    has_conflict clauses a = false ↔ ∀ c ∈ clauses, eval_clause c a ≠ some false := by
  constructor
  · intro h c hc hf
    have : has_conflict clauses a = true := (has_conflict_iff _ _).2 ⟨c, hc, hf⟩
    rw [h] at this
    cases this
  · intro h
    cases hh : has_conflict clauses a with
    | false => rfl
    | true =>
      rcases (has_conflict_iff _ _).1 hh with ⟨c, hc, hf⟩
      exact absurd hf (h c hc)

theorem all_clauses_satisfied_iff (clauses : List (List Int)) (a : Assignment) :
    all_clauses_satisfied clauses a = true ↔ ∀ c ∈ clauses, eval_clause c a = some true := by
  rw [all_clauses_satisfied]
  by_cases hcs : clauses.isEmpty
  · rw [if_pos hcs]
    rw [List.isEmpty_iff] at hcs
    subst hcs
    simp
  · rw [if_neg hcs, List.all_eq_true]
    constructor
    · intro h c hc
      exact (isTrue3_iff _).1 (h c hc)
    · intro h c hc
      exact (isTrue3_iff _).2 (h c hc)

theorem all_satisfied_of_no_conflict_full {n : Nat} {clauses : List (List Int)} {a : Assignment}
    (hin : inRange n clauses)
    (hfull : ∀ v, 1 ≤ v → v ≤ n → (alookup a v).isSome = true)
    (hnc : has_conflict clauses a = false) :
    all_clauses_satisfied clauses a = true := by
  rw [all_clauses_satisfied_iff]
  intro c hc
  have hassigned : ∀ lit ∈ c, (alookup a lit.natAbs).isSome = true := by
    intro l hm
    exact hfull _ (hin c hc l hm).1 (hin c hc l hm).2
  have heval := eval_clause_of_assigned hassigned
  cases hb : clauseSatF (fun k => (alookup a k).getD false) c with
  | true => rw [heval, hb]
  | false =>
    exfalso
    rw [hb] at heval
    exact (has_conflict_eq_false_iff _ _).1 hnc c hc heval

/-! Lemmas about `fill_assignment`, `full_assign`, `allFalse`, `isComplete`. -/

theorem alookup_map_pair (l : List Nat) (g : Nat → Bool) (k : Nat) :
    alookup (l.map (fun v => (v, g v))) k = if k ∈ l then some (g k) else none := by
  induction l with
  | nil => simp [alookup]
  | cons x rest ih =>
    rw [List.map_cons, alookup]
    by_cases hx : x = k
    · subst hx
      simp
    · rw [if_neg hx, ih]
      have hkx : ¬(k = x) := fun hh => hx hh.symm
      by_cases hk : k ∈ rest
      · rw [if_pos hk, if_pos (List.mem_cons.2 (Or.inr hk))]
      · rw [if_neg hk, if_neg]
        intro hmem
        rcases List.mem_cons.1 hmem with hh | hh
        · exact hkx hh
        · exact hk hh

theorem alookup_fill (n : Nat) (a : Assignment) (k : Nat) :
    alookup (fill_assignment n a) k =
      if 1 ≤ k ∧ k ≤ n then some ((alookup a k).getD false) else none := by
  rw [fill_assignment, alookup_map_pair]
  by_cases h : 1 ≤ k ∧ k ≤ n
  · rw [if_pos h, if_pos (by rw [List.mem_range'_1]; omega)]
  · rw [if_neg h, if_neg (by rw [List.mem_range'_1]; omega)]

theorem alookup_allFalse (n : Nat) (k : Nat) :
    alookup (allFalse n) k = if 1 ≤ k ∧ k ≤ n then some false else none := by
  rw [allFalse, alookup_map_pair]
  by_cases h : 1 ≤ k ∧ k ≤ n
  · rw [if_pos h, if_pos (by rw [List.mem_range'_1]; omega)]
  · rw [if_neg h, if_neg (by rw [List.mem_range'_1]; omega)]

theorem allFalse_eq_fill_nil (n : Nat) : allFalse n = fill_assignment n [] := by
  rw [allFalse, fill_assignment]
  rfl

theorem isComplete_iff (n : Nat) (a : Assignment) :
    isComplete n a = true ↔
      (∀ k, 1 ≤ k → k ≤ n → (alookup a k).isSome = true) ∧
        (∀ p ∈ a, 1 ≤ p.1 ∧ p.1 ≤ n) := by
  rw [isComplete, Bool.and_eq_true, List.all_eq_true, List.all_eq_true]
  constructor
  · rintro ⟨h1, h2⟩
    constructor
    · intro k hk1 hk2
      exact h1 k (by rw [List.mem_range'_1]; omega)
    · intro p hp
      have := h2 p hp
      rw [Bool.and_eq_true, decide_eq_true_eq, decide_eq_true_eq] at this
      exact this
  · rintro ⟨h1, h2⟩
    constructor
    · intro k hk
      rw [List.mem_range'_1] at hk
      exact h1 k hk.1 (by omega)
    · intro p hp
      rw [Bool.and_eq_true, decide_eq_true_eq, decide_eq_true_eq]
      exact h2 p hp

theorem isComplete_fill (n : Nat) (a : Assignment) :
    isComplete n (fill_assignment n a) = true := by
  rw [isComplete_iff]
  constructor
  · intro k hk1 hk2
    rw [alookup_fill, if_pos ⟨hk1, hk2⟩]
    rfl
  · intro p hp
    rw [fill_assignment] at hp
    rcases List.mem_map.1 hp with ⟨v, hv, rfl⟩
    rw [List.mem_range'_1] at hv
    exact ⟨hv.1, by omega⟩

theorem isComplete_allFalse (n : Nat) : isComplete n (allFalse n) = true := by
  rw [allFalse_eq_fill_nil]
  exact isComplete_fill n []

theorem key_range_of_some {n : Nat} {a : Assignment} {k : Nat} {v : Bool}
    (hk : ∀ p ∈ a, 1 ≤ p.1 ∧ p.1 ≤ n) (h : alookup a k = some v) : 1 ≤ k ∧ k ≤ n := by
  have hm := (isSome_alookup_iff_mem a k).1 (by rw [h]; rfl)
  rcases List.mem_map.1 hm with ⟨p, hp, rfl⟩
  exact hk p hp

theorem alookup_full_assign {n : Nat} {a : Assignment}
    (hk : ∀ p ∈ a, 1 ≤ p.1 ∧ p.1 ≤ n) (k : Nat) :
    alookup (full_assign n a) k = alookup (fill_assignment n a) k := by
  rw [full_assign, alookup_append, alookup_fill]
  cases ha : alookup a k with
  | some b =>
    rw [if_pos (key_range_of_some hk ha)]
    simp [ha]
  | none =>
    rw [Option.none_or, alookup_map_pair]
    by_cases hkr : 1 ≤ k ∧ k ≤ n
    · rw [if_pos hkr]
      have hmem : k ∈ (List.range' 1 n).filter (fun v => (alookup a v).isNone) := by
        rw [List.mem_filter]
        exact ⟨by rw [List.mem_range'_1]; omega, by simp [ha]⟩
      rw [if_pos hmem]
      simp [ha]
    · rw [if_neg hkr, if_neg]
      intro hmem
      rcases List.mem_filter.1 hmem with ⟨hr, _⟩
      rw [List.mem_range'_1] at hr
      exact hkr ⟨hr.1, by omega⟩

theorem isComplete_full_assign {n : Nat} {a : Assignment}
    (hk : ∀ p ∈ a, 1 ≤ p.1 ∧ p.1 ≤ n) :
    isComplete n (full_assign n a) = true := by
  rw [isComplete_iff]
  constructor
  · intro k hk1 hk2
    rw [alookup_full_assign hk, alookup_fill, if_pos ⟨hk1, hk2⟩]
    rfl
  · intro p hp
    rw [full_assign] at hp
    rcases List.mem_append.1 hp with hp | hp
    · exact hk p hp
    · rcases List.mem_map.1 hp with ⟨v, hv, rfl⟩
      rcases List.mem_filter.1 hv with ⟨hr, _⟩
      rw [List.mem_range'_1] at hr
      exact ⟨hr.1, by omega⟩

theorem fill_ainsert_false {n : Nat} {a : Assignment} {v : Nat} (h : alookup a v = none) :
    fill_assignment n (ainsert a v false) = fill_assignment n a := by
  rw [fill_assignment, fill_assignment]
  apply List.map_congr_left
  intro u _
  by_cases huv : u = v
  · subst huv
    rw [alookup_ainsert_self, h]
    rfl
  · rw [alookup_ainsert_ne _ _ _ huv]

theorem count_satisfied_eq_countSatF {n : Nat} {clauses : List (List Int)} {a : Assignment}
    (hin : inRange n clauses) (hc : isComplete n a = true) :
    count_satisfied clauses a = countSatF (fun k => (alookup a k).getD false) clauses := by
  rw [count_satisfied, countSatF]
  apply List.countP_congr
  intro c hc'
  have hassigned : ∀ lit ∈ c, (alookup a lit.natAbs).isSome = true := by
    intro l hm
    exact ((isComplete_iff n a).1 hc).1 _ (hin c hc' l hm).1 (hin c hc' l hm).2
  rw [eval_clause_of_assigned hassigned]
  cases clauseSatF (fun k => (alookup a k).getD false) c <;> simp [isTrue3]

theorem count_satisfied_fill_of_all {n : Nat} {clauses : List (List Int)} {a : Assignment}
    (hk : ∀ p ∈ a, 1 ≤ p.1 ∧ p.1 ≤ n)
    (hall : all_clauses_satisfied clauses a = true) :
    count_satisfied clauses (fill_assignment n a) = clauses.length := by
  rw [count_satisfied, List.countP_eq_length]
  intro c hc
  have h1 := (all_clauses_satisfied_iff clauses a).1 hall c hc
  have h2 : eval_clause c (fill_assignment n a) = some true := by
    apply eval_clause_true_mono ?_ h1
    intro k v hv
    have hkr := key_range_of_some hk hv
    rw [alookup_fill, if_pos hkr, hv]
    rfl
  rw [isTrue3_iff]
  exact h2

/-! Lemmas about the `backtrack` helper of `sat_backtracking` (`btRun`). -/


theorem countP_flip_one :
    ∀ (l : List Nat), l.Nodup → ∀ v ∈ l, ∀ p q : Nat → Bool,
      p v = true → q v = false → (∀ x ∈ l, x ≠ v → p x = q x) →
      l.countP p = l.countP q + 1 := by
  intro l
  induction l with
  | nil =>
    intro _ v hv
    cases hv
  | cons x rest ih =>
    intro hnd v hv p q hp hq hagree
    have hnd' := List.nodup_cons.1 hnd
    rcases List.mem_cons.1 hv with rfl | hvrest
    · have hcong : rest.countP p = rest.countP q := by
        apply List.countP_congr
        intro y hy
        have hyv : y ≠ v := fun hh => hnd'.1 (hh ▸ hy)
        rw [hagree y (List.mem_cons_of_mem _ hy) hyv]
    -- here v = x after the rfl case
      rw [List.countP_cons, List.countP_cons, hcong, hp, hq]
      simp
    · have hxv : x ≠ v := fun hh => hnd'.1 (hh ▸ hvrest)
      rw [List.countP_cons, List.countP_cons, hagree x (List.mem_cons_self _ _) hxv]
      have hrec := ih hnd'.2 v hvrest p q hp hq
        (fun y hy hyv => hagree y (List.mem_cons_of_mem _ hy) hyv)
      omega

theorem uc_ainsert {n : Nat} {a : Assignment} {v : Nat}
    (hv1 : 1 ≤ v) (hv2 : v ≤ n) (hnone : alookup a v = none) (b : Bool) :
    uc n a = uc n (ainsert a v b) + 1 := by
  rw [uc, uc, ← List.countP_eq_length_filter, ← List.countP_eq_length_filter]
  apply countP_flip_one (List.range' 1 n) (List.nodup_range' 1 n) v
    (by rw [List.mem_range'_1]; omega)
  · rw [hnone]
    rfl
  · rw [alookup_ainsert_self]
    rfl
  · intro x _ hxv
    rw [alookup_ainsert_ne _ _ _ hxv]

theorem uc_nil (n : Nat) : uc n [] = n := by
  rw [uc, List.filter_eq_self.2 (by intro v _; rfl)]
  simp

/-! Step equations for `btRun`, one per branch of the Python `backtrack`. -/

theorem btRun_eq_conflict {n : Nat} {cs : List (List Int)} {a : Assignment} (fuel : Nat)
    (hc : has_conflict cs a = true) :
    btRun n cs (fuel + 1) a = some ((false, []), a) := by
  rw [btRun, if_pos hc]

theorem btRun_eq_sat {n : Nat} {cs : List (List Int)} {a : Assignment} (fuel : Nat)
    (hc : has_conflict cs a = false) (hs : all_clauses_satisfied cs a = true) :
    btRun n cs (fuel + 1) a = some ((true, full_assign n a), a) := by
  rw [btRun, if_neg (by rw [hc]; simp), if_pos hs]

theorem btRun_eq_novar {n : Nat} {cs : List (List Int)} {a : Assignment} (fuel : Nat)
    (hc : has_conflict cs a = false) (hs : all_clauses_satisfied cs a = false)
    (hnv : next_var n a = none) :
    btRun n cs (fuel + 1) a = some ((false, []), a) := by
  rw [btRun, if_neg (by rw [hc]; simp), if_neg (by rw [hs]; simp), hnv]

theorem btRun_eq_var {n : Nat} {cs : List (List Int)} {a : Assignment} {fuel : Nat}
    {v : Nat} (hc : has_conflict cs a = false) (hs : all_clauses_satisfied cs a = false)
    (hnv : next_var n a = some v) :
    btRun n cs (fuel + 1) a =
      match btRun n cs fuel (ainsert a v true) with
      | none => none
      | some ((sat1, sol1), a1) =>
        if sat1 then some ((true, sol1), a1)
        else
          match btRun n cs fuel (ainsert (aerase a1 v) v false) with
          | none => none
          | some ((sat2, sol2), a2) =>
            if sat2 then some ((true, sol2), a2)
            else some ((false, []), aerase a2 v) := by
  rw [btRun, if_neg (by rw [hc]; simp), if_neg (by rw [hs]; simp), hnv]

theorem btRun_eq_first_none {n : Nat} {cs : List (List Int)} {a : Assignment} {fuel : Nat}
    {v : Nat} (hc : has_conflict cs a = false) (hs : all_clauses_satisfied cs a = false)
    (hnv : next_var n a = some v) (h1 : btRun n cs fuel (ainsert a v true) = none) :
    btRun n cs (fuel + 1) a = none := by
  rw [btRun_eq_var hc hs hnv, h1]

theorem btRun_eq_first_true {n : Nat} {cs : List (List Int)} {a : Assignment} {fuel : Nat}
    {v : Nat} {sol1 : Assignment} {a1 : Assignment}
    (hc : has_conflict cs a = false) (hs : all_clauses_satisfied cs a = false)
    (hnv : next_var n a = some v)
    (h1 : btRun n cs fuel (ainsert a v true) = some ((true, sol1), a1)) :
    btRun n cs (fuel + 1) a = some ((true, sol1), a1) := by
  rw [btRun_eq_var hc hs hnv, h1]
  rfl

theorem btRun_eq_second_none {n : Nat} {cs : List (List Int)} {a : Assignment} {fuel : Nat}
    {v : Nat} {sol1 : Assignment} {a1 : Assignment}
    (hc : has_conflict cs a = false) (hs : all_clauses_satisfied cs a = false)
    (hnv : next_var n a = some v)
    (h1 : btRun n cs fuel (ainsert a v true) = some ((false, sol1), a1))
    (h2 : btRun n cs fuel (ainsert (aerase a1 v) v false) = none) :
    btRun n cs (fuel + 1) a = none := by
  rw [btRun_eq_var hc hs hnv, h1]
  dsimp only
  rw [h2]
  rfl

theorem btRun_eq_second_true {n : Nat} {cs : List (List Int)} {a : Assignment} {fuel : Nat}
    {v : Nat} {sol1 : Assignment} {a1 : Assignment} {sol2 : Assignment} {a2 : Assignment}
    (hc : has_conflict cs a = false) (hs : all_clauses_satisfied cs a = false)
    (hnv : next_var n a = some v)
    (h1 : btRun n cs fuel (ainsert a v true) = some ((false, sol1), a1))
    (h2 : btRun n cs fuel (ainsert (aerase a1 v) v false) = some ((true, sol2), a2)) :
    btRun n cs (fuel + 1) a = some ((true, sol2), a2) := by
  rw [btRun_eq_var hc hs hnv, h1]
  dsimp only
  rw [h2]
  rfl

theorem btRun_eq_second_false {n : Nat} {cs : List (List Int)} {a : Assignment} {fuel : Nat}
    {v : Nat} {sol1 : Assignment} {a1 : Assignment} {sol2 : Assignment} {a2 : Assignment}
    (hc : has_conflict cs a = false) (hs : all_clauses_satisfied cs a = false)
    (hnv : next_var n a = some v)
    (h1 : btRun n cs fuel (ainsert a v true) = some ((false, sol1), a1))
    (h2 : btRun n cs fuel (ainsert (aerase a1 v) v false) = some ((false, sol2), a2)) :
    btRun n cs (fuel + 1) a = some ((false, []), aerase a2 v) := by
  rw [btRun_eq_var hc hs hnv, h1]
  dsimp only
  rw [h2]
  rfl

theorem btRun_restore (n : Nat) (cs : List (List Int)) :
    ∀ fuel a r, btRun n cs fuel a = some r → r.1.1 = false → r.1.2 = [] ∧ r.2 = a := by
  intro fuel
  induction fuel with
  | zero =>
    intro a r h _
    cases h
  | succ fuel ih =>
    intro a r h hf
    cases hc : has_conflict cs a with
    | true =>
      rw [btRun_eq_conflict fuel hc] at h
      have hr := (Option.some.inj h).symm
      subst hr
      exact ⟨rfl, rfl⟩
    | false =>
      cases hsat : all_clauses_satisfied cs a with
      | true =>
        rw [btRun_eq_sat fuel hc hsat] at h
        have hr := (Option.some.inj h).symm
        subst hr
        simp at hf
      | false =>
        cases hnv : next_var n a with
        | none =>
          rw [btRun_eq_novar fuel hc hsat hnv] at h
          have hr := (Option.some.inj h).symm
          subst hr
          exact ⟨rfl, rfl⟩
        | some v =>
          cases h1 : btRun n cs fuel (ainsert a v true) with
          | none =>
            rw [btRun_eq_first_none hc hsat hnv h1] at h
            cases h
          | some r1 =>
            obtain ⟨⟨sat1, sol1⟩, a1⟩ := r1
            cases sat1 with
            | true =>
              rw [btRun_eq_first_true hc hsat hnv h1] at h
              have hr := (Option.some.inj h).symm
              subst hr
              simp at hf
            | false =>
              cases h2 : btRun n cs fuel (ainsert (aerase a1 v) v false) with
              | none =>
                rw [btRun_eq_second_none hc hsat hnv h1 h2] at h
                cases h
              | some r2 =>
                obtain ⟨⟨sat2, sol2⟩, a2⟩ := r2
                cases sat2 with
                | true =>
                  rw [btRun_eq_second_true hc hsat hnv h1 h2] at h
                  have hr := (Option.some.inj h).symm
                  subst hr
                  simp at hf
                | false =>
                  rw [btRun_eq_second_false hc hsat hnv h1 h2] at h
                  have hr := (Option.some.inj h).symm
                  subst hr
                  refine ⟨rfl, ?_⟩
                  have hr1 := ih _ _ h1 rfl
                  have hr2 := ih _ _ h2 rfl
                  rcases next_var_some hnv with ⟨hvnone, _, _⟩
                  have ha1 : a1 = ainsert a v true := hr1.2
                  have ha2 : a2 = ainsert (aerase a1 v) v false := hr2.2
                  rw [ha2, ha1, aerase_ainsert hvnone, aerase_ainsert hvnone]

theorem btRun_isSome (n : Nat) (cs : List (List Int)) :
    ∀ fuel a, uc n a < fuel → (btRun n cs fuel a).isSome = true := by
  intro fuel
  induction fuel with
  | zero =>
    intro a h
    omega
  | succ fuel ih =>
    intro a h
    cases hc : has_conflict cs a with
    | true => rw [btRun_eq_conflict fuel hc]; rfl
    | false =>
      cases hsat : all_clauses_satisfied cs a with
      | true => rw [btRun_eq_sat fuel hc hsat]; rfl
      | false =>
        cases hnv : next_var n a with
        | none => rw [btRun_eq_novar fuel hc hsat hnv]; rfl
        | some v =>
          rcases next_var_some hnv with ⟨hvnone, hv1, hv2⟩
          have hmeas := uc_ainsert hv1 hv2 hvnone
          have hm1 : uc n (ainsert a v true) < fuel := by
            have := hmeas true
            omega
          have h1s := ih (ainsert a v true) hm1
          cases h1 : btRun n cs fuel (ainsert a v true) with
          | none =>
            rw [h1] at h1s
            cases h1s
          | some r1 =>
            obtain ⟨⟨sat1, sol1⟩, a1⟩ := r1
            cases sat1 with
            | true => rw [btRun_eq_first_true hc hsat hnv h1]; rfl
            | false =>
              have ha1 : a1 = ainsert a v true := (btRun_restore n cs fuel _ _ h1 rfl).2
              have hm2 : uc n (ainsert a v false) < fuel := by
                have := hmeas false
                omega
              have h2s := ih (ainsert a v false) hm2
              have harg : ainsert (aerase a1 v) v false = ainsert a v false := by
                rw [ha1, aerase_ainsert hvnone]
              cases h2 : btRun n cs fuel (ainsert (aerase a1 v) v false) with
              | none =>
                rw [harg] at h2
                rw [h2] at h2s
                cases h2s
              | some r2 =>
                obtain ⟨⟨sat2, sol2⟩, a2⟩ := r2
                cases sat2 with
                | true => rw [btRun_eq_second_true hc hsat hnv h1 h2]; rfl
                | false => rw [btRun_eq_second_false hc hsat hnv h1 h2]; rfl

theorem btRun_success (n : Nat) (cs : List (List Int)) :
    ∀ fuel a sol a', btRun n cs fuel a = some ((true, sol), a') →
      (∀ p ∈ a, 1 ≤ p.1 ∧ p.1 ≤ n) →
      ∃ b : Assignment, (∀ p ∈ b, 1 ≤ p.1 ∧ p.1 ≤ n) ∧
        all_clauses_satisfied cs b = true ∧ sol = full_assign n b := by
  intro fuel
  induction fuel with
  | zero =>
    intro a sol a' h
    cases h
  | succ fuel ih =>
    intro a sol a' h hk
    cases hc : has_conflict cs a with
    | true =>
      rw [btRun_eq_conflict fuel hc] at h
      have hfalse : false = true := congrArg (fun r => r.1.1) (Option.some.inj h)
      cases hfalse
    | false =>
      cases hsat : all_clauses_satisfied cs a with
      | true =>
        rw [btRun_eq_sat fuel hc hsat] at h
        have hsol : full_assign n a = sol := congrArg (fun r => r.1.2) (Option.some.inj h)
        exact ⟨a, hk, hsat, hsol.symm⟩
      | false =>
        cases hnv : next_var n a with
        | none =>
          rw [btRun_eq_novar fuel hc hsat hnv] at h
          have hfalse : false = true := congrArg (fun r => r.1.1) (Option.some.inj h)
          cases hfalse
        | some v =>
          rcases next_var_some hnv with ⟨hvnone, hv1, hv2⟩
          have hkins : ∀ b : Bool, ∀ p ∈ ainsert a v b, 1 ≤ p.1 ∧ p.1 ≤ n :=
            fun b => keysIn_ainsert hk hvnone hv1 hv2 b
          cases h1 : btRun n cs fuel (ainsert a v true) with
          | none =>
            rw [btRun_eq_first_none hc hsat hnv h1] at h
            cases h
          | some r1 =>
            obtain ⟨⟨sat1, sol1⟩, a1⟩ := r1
            cases sat1 with
            | true =>
              rw [btRun_eq_first_true hc hsat hnv h1] at h
              have hsol : sol1 = sol := congrArg (fun r => r.1.2) (Option.some.inj h)
              subst hsol
              exact ih _ _ _ h1 (hkins true)
            | false =>
              have ha1 : a1 = ainsert a v true := (btRun_restore n cs fuel _ _ h1 rfl).2
              cases h2 : btRun n cs fuel (ainsert (aerase a1 v) v false) with
              | none =>
                rw [btRun_eq_second_none hc hsat hnv h1 h2] at h
                cases h
              | some r2 =>
                obtain ⟨⟨sat2, sol2⟩, a2⟩ := r2
                cases sat2 with
                | true =>
                  rw [btRun_eq_second_true hc hsat hnv h1 h2] at h
                  have hsol : sol2 = sol := congrArg (fun r => r.1.2) (Option.some.inj h)
                  subst hsol
                  have harg : ainsert (aerase a1 v) v false = ainsert a v false := by
                    rw [ha1, aerase_ainsert hvnone]
                  rw [harg] at h2
                  exact ih _ _ _ h2 (hkins false)
                | false =>
                  rw [btRun_eq_second_false hc hsat hnv h1 h2] at h
                  have hfalse : false = true := congrArg (fun r => r.1.1) (Option.some.inj h)
                  cases hfalse

theorem clauseSatF_false_of_eval_false {a : Assignment} {c : List Int} {f : Nat → Bool}
    (hext : ∀ k v, alookup a k = some v → f k = v)
    (h : eval_clause c a = some false) : clauseSatF f c = false := by
  rw [eval_clause_some_false_iff] at h
  rw [clauseSatF, List.any_eq_false]
  intro lit hm
  rcases h lit hm with ⟨v, hv, hs⟩
  rw [hext _ _ hv]
  simp [hs]

theorem btRun_complete (n : Nat) (cs : List (List Int)) (hin : inRange n cs) :
    ∀ fuel a, uc n a < fuel →
      (∀ p ∈ a, 1 ≤ p.1 ∧ p.1 ≤ n) →
      ∀ f : Nat → Bool, (∀ k v, alookup a k = some v → f k = v) →
      allSatF f cs = true →
      ∃ sol a', btRun n cs fuel a = some ((true, sol), a') := by
  intro fuel
  induction fuel with
  | zero =>
    intro a h
    omega
  | succ fuel ih =>
    intro a hfuel hk f hext hf
    have hc : has_conflict cs a = false := by
      cases hcc : has_conflict cs a with
      | false => rfl
      | true =>
        exfalso
        rcases (has_conflict_iff cs a).1 hcc with ⟨c, hcmem, hceval⟩
        have hcf := clauseSatF_false_of_eval_false hext hceval
        rw [allSatF, List.all_eq_true] at hf
        have h2 := hf c hcmem
        rw [hcf] at h2
        cases h2
    cases hsat : all_clauses_satisfied cs a with
    | true => exact ⟨full_assign n a, a, btRun_eq_sat fuel hc hsat⟩
    | false =>
      cases hnv : next_var n a with
      | none =>
        exfalso
        have hfull := next_var_eq_none_iff.1 hnv
        have hall := all_satisfied_of_no_conflict_full hin hfull hc
        rw [hsat] at hall
        cases hall
      | some v =>
        rcases next_var_some hnv with ⟨hvnone, hv1, hv2⟩
        have hmeas := uc_ainsert hv1 hv2 hvnone
        have hkins : ∀ b : Bool, ∀ p ∈ ainsert a v b, 1 ≤ p.1 ∧ p.1 ≤ n :=
          fun b => keysIn_ainsert hk hvnone hv1 hv2 b
        have hextins : ∀ b : Bool, f v = b →
            ∀ k vv, alookup (ainsert a v b) k = some vv → f k = vv := by
          intro b hfv k vv hkv
          by_cases hkv' : k = v
          · subst hkv'
            rw [alookup_ainsert_self] at hkv
            rw [hfv]
            exact Option.some.inj hkv
          · rw [alookup_ainsert_ne _ _ _ hkv'] at hkv
            exact hext _ _ hkv
        have hm1 : uc n (ainsert a v true) < fuel := by
          have := hmeas true
          omega
        have hm2 : uc n (ainsert a v false) < fuel := by
          have := hmeas false
          omega
        cases hfv : f v with
        | true =>
          rcases ih (ainsert a v true) hm1 (hkins true) f (hextins true hfv) hf with
            ⟨sol1, a1, h1⟩
          exact ⟨sol1, a1, btRun_eq_first_true hc hsat hnv h1⟩
        | false =>
          have h1s := btRun_isSome n cs fuel (ainsert a v true) hm1
          cases h1 : btRun n cs fuel (ainsert a v true) with
          | none =>
            rw [h1] at h1s
            cases h1s
          | some r1 =>
            obtain ⟨⟨sat1, sol1⟩, a1⟩ := r1
            cases sat1 with
            | true => exact ⟨sol1, a1, btRun_eq_first_true hc hsat hnv h1⟩
            | false =>
              have ha1 : a1 = ainsert a v true := (btRun_restore n cs fuel _ _ h1 rfl).2
              have harg : ainsert (aerase a1 v) v false = ainsert a v false := by
                rw [ha1, aerase_ainsert hvnone]
              rcases ih (ainsert a v false) hm2 (hkins false) f (hextins false hfv) hf with
                ⟨sol2, a2, h2⟩
              refine ⟨sol2, a2, btRun_eq_second_true hc hsat hnv h1 ?_⟩
              rw [harg]
              exact h2

/-! Step equations for `bcRun`, one per branch of `sat_bestcase`'s `backtrack`. -/

theorem bcRun_eq_conflict {n : Nat} {cs : List (List Int)} {a : Assignment} {s : BCState}
    (fuel : Nat) (hc : has_conflict cs a = true) :
    bcRun n cs (fuel + 1) a s = some (false, a, record_candidate n cs a s) := by
  rw [bcRun, if_pos hc]

theorem bcRun_eq_sat {n : Nat} {cs : List (List Int)} {a : Assignment} {s : BCState}
    (fuel : Nat) (hc : has_conflict cs a = false) (hs : all_clauses_satisfied cs a = true) :
    bcRun n cs (fuel + 1) a s = some (true, a,
      { best_assignment := fill_assignment n a, best_score := (cs.length : Int),
        solution := some (fill_assignment n a) }) := by
  rw [bcRun, if_neg (by rw [hc]; simp), if_pos hs]

theorem bcRun_eq_full {n : Nat} {cs : List (List Int)} {a : Assignment} {s : BCState}
    (fuel : Nat) (hc : has_conflict cs a = false) (hs : all_clauses_satisfied cs a = false)
    (hlen : a.length = n) :
    bcRun n cs (fuel + 1) a s = some (false, a, record_candidate n cs a s) := by
  rw [bcRun, if_neg (by rw [hc]; simp), if_neg (by rw [hs]; simp), if_pos hlen]

theorem bcRun_eq_novar {n : Nat} {cs : List (List Int)} {a : Assignment} {s : BCState}
    (fuel : Nat) (hc : has_conflict cs a = false) (hs : all_clauses_satisfied cs a = false)
    (hlen : ¬(a.length = n)) (hnv : next_var n a = none) :
    bcRun n cs (fuel + 1) a s = some (false, a, record_candidate n cs a s) := by
  rw [bcRun, if_neg (by rw [hc]; simp), if_neg (by rw [hs]; simp), if_neg hlen, hnv]

theorem bcRun_eq_var {n : Nat} {cs : List (List Int)} {a : Assignment} {s : BCState}
    {fuel : Nat} {v : Nat}
    (hc : has_conflict cs a = false) (hs : all_clauses_satisfied cs a = false)
    (hlen : ¬(a.length = n)) (hnv : next_var n a = some v) :
    bcRun n cs (fuel + 1) a s =
      match bcRun n cs fuel (ainsert a v true) s with
      | none => none
      | some (found1, a1, s1) =>
        if found1 then some (true, a1, s1)
        else
          match bcRun n cs fuel (ainsert (aerase a1 v) v false) s1 with
          | none => none
          | some (found2, a2, s2) =>
            if found2 then some (true, a2, s2)
            else some (false, aerase a2 v, s2) := by
  rw [bcRun, if_neg (by rw [hc]; simp), if_neg (by rw [hs]; simp), if_neg hlen, hnv]

theorem bcRun_eq_first_none {n : Nat} {cs : List (List Int)} {a : Assignment} {s : BCState}
    {fuel : Nat} {v : Nat}
    (hc : has_conflict cs a = false) (hs : all_clauses_satisfied cs a = false)
    (hlen : ¬(a.length = n)) (hnv : next_var n a = some v)
    (h1 : bcRun n cs fuel (ainsert a v true) s = none) :
    bcRun n cs (fuel + 1) a s = none := by
  rw [bcRun_eq_var hc hs hlen hnv, h1]

theorem bcRun_eq_first_true {n : Nat} {cs : List (List Int)} {a : Assignment} {s : BCState}
    {fuel : Nat} {v : Nat} {a1 : Assignment} {s1 : BCState}
    (hc : has_conflict cs a = false) (hs : all_clauses_satisfied cs a = false)
    (hlen : ¬(a.length = n)) (hnv : next_var n a = some v)
    (h1 : bcRun n cs fuel (ainsert a v true) s = some (true, a1, s1)) :
    bcRun n cs (fuel + 1) a s = some (true, a1, s1) := by
  rw [bcRun_eq_var hc hs hlen hnv, h1]
  rfl

theorem bcRun_eq_second_none {n : Nat} {cs : List (List Int)} {a : Assignment} {s : BCState}
    {fuel : Nat} {v : Nat} {a1 : Assignment} {s1 : BCState}
    (hc : has_conflict cs a = false) (hs : all_clauses_satisfied cs a = false)
    (hlen : ¬(a.length = n)) (hnv : next_var n a = some v)
    (h1 : bcRun n cs fuel (ainsert a v true) s = some (false, a1, s1))
    (h2 : bcRun n cs fuel (ainsert (aerase a1 v) v false) s1 = none) :
    bcRun n cs (fuel + 1) a s = none := by
  rw [bcRun_eq_var hc hs hlen hnv, h1]
  dsimp only
  rw [h2]
  rfl

theorem bcRun_eq_second_true {n : Nat} {cs : List (List Int)} {a : Assignment} {s : BCState}
    {fuel : Nat} {v : Nat} {a1 : Assignment} {s1 : BCState} {a2 : Assignment} {s2 : BCState}
    (hc : has_conflict cs a = false) (hs : all_clauses_satisfied cs a = false)
    (hlen : ¬(a.length = n)) (hnv : next_var n a = some v)
    (h1 : bcRun n cs fuel (ainsert a v true) s = some (false, a1, s1))
    (h2 : bcRun n cs fuel (ainsert (aerase a1 v) v false) s1 = some (true, a2, s2)) :
    bcRun n cs (fuel + 1) a s = some (true, a2, s2) := by
  rw [bcRun_eq_var hc hs hlen hnv, h1]
  dsimp only
  rw [h2]
  rfl

theorem bcRun_eq_second_false {n : Nat} {cs : List (List Int)} {a : Assignment} {s : BCState}
    {fuel : Nat} {v : Nat} {a1 : Assignment} {s1 : BCState} {a2 : Assignment} {s2 : BCState}
    (hc : has_conflict cs a = false) (hs : all_clauses_satisfied cs a = false)
    (hlen : ¬(a.length = n)) (hnv : next_var n a = some v)
    (h1 : bcRun n cs fuel (ainsert a v true) s = some (false, a1, s1))
    (h2 : bcRun n cs fuel (ainsert (aerase a1 v) v false) s1 = some (false, a2, s2)) :
    bcRun n cs (fuel + 1) a s = some (false, aerase a2 v, s2) := by
  rw [bcRun_eq_var hc hs hlen hnv, h1]
  dsimp only
  rw [h2]
  rfl

theorem bcRun_restore (n : Nat) (cs : List (List Int)) :
    ∀ fuel a s r, bcRun n cs fuel a s = some r → r.1 = false → r.2.1 = a := by
  intro fuel
  induction fuel with
  | zero =>
    intro a s r h _
    cases h
  | succ fuel ih =>
    intro a s r h hf
    cases hc : has_conflict cs a with
    | true =>
      rw [bcRun_eq_conflict fuel hc] at h
      have hr := (Option.some.inj h).symm
      subst hr
      rfl
    | false =>
      cases hsat : all_clauses_satisfied cs a with
      | true =>
        rw [bcRun_eq_sat fuel hc hsat] at h
        have hr := (Option.some.inj h).symm
        subst hr
        simp at hf
      | false =>
        by_cases hlen : a.length = n
        · rw [bcRun_eq_full fuel hc hsat hlen] at h
          have hr := (Option.some.inj h).symm
          subst hr
          rfl
        · cases hnv : next_var n a with
          | none =>
            rw [bcRun_eq_novar fuel hc hsat hlen hnv] at h
            have hr := (Option.some.inj h).symm
            subst hr
            rfl
          | some v =>
            cases h1 : bcRun n cs fuel (ainsert a v true) s with
            | none =>
              rw [bcRun_eq_first_none hc hsat hlen hnv h1] at h
              cases h
            | some r1 =>
              obtain ⟨found1, a1, s1⟩ := r1
              cases found1 with
              | true =>
                rw [bcRun_eq_first_true hc hsat hlen hnv h1] at h
                have hr := (Option.some.inj h).symm
                subst hr
                simp at hf
              | false =>
                cases h2 : bcRun n cs fuel (ainsert (aerase a1 v) v false) s1 with
                | none =>
                  rw [bcRun_eq_second_none hc hsat hlen hnv h1 h2] at h
                  cases h
                | some r2 =>
                  obtain ⟨found2, a2, s2⟩ := r2
                  cases found2 with
                  | true =>
                    rw [bcRun_eq_second_true hc hsat hlen hnv h1 h2] at h
                    have hr := (Option.some.inj h).symm
                    subst hr
                    simp at hf
                  | false =>
                    rw [bcRun_eq_second_false hc hsat hlen hnv h1 h2] at h
                    have hr := (Option.some.inj h).symm
                    subst hr
                    have ha1 : a1 = ainsert a v true := ih _ _ _ h1 rfl
                    have ha2 : a2 = ainsert (aerase a1 v) v false := ih _ _ _ h2 rfl
                    rcases next_var_some hnv with ⟨hvnone, _, _⟩
                    show aerase a2 v = a
                    rw [ha2, ha1, aerase_ainsert hvnone, aerase_ainsert hvnone]

theorem bt_bc_align (n : Nat) (cs : List (List Int)) :
    ∀ fuel a s, (∀ p ∈ a, 1 ≤ p.1 ∧ p.1 ≤ n) → (akeys a).Nodup →
      (btRun n cs fuel a = none ∧ bcRun n cs fuel a s = none) ∨
      (∃ sat sol a' s', btRun n cs fuel a = some ((sat, sol), a') ∧
        bcRun n cs fuel a s = some (sat, a', s') ∧
        (sat = true → ∃ b : Assignment, (∀ p ∈ b, 1 ≤ p.1 ∧ p.1 ≤ n) ∧
          all_clauses_satisfied cs b = true ∧
          sol = full_assign n b ∧ s'.solution = some (fill_assignment n b))) := by
  intro fuel
  induction fuel with
  | zero =>
    intro a s _ _
    left
    exact ⟨rfl, rfl⟩
  | succ fuel ih =>
    intro a s hk hnd
    cases hc : has_conflict cs a with
    | true =>
      right
      exact ⟨false, [], a, record_candidate n cs a s, btRun_eq_conflict fuel hc,
        bcRun_eq_conflict fuel hc, fun h => absurd h Bool.false_ne_true⟩
    | false =>
      cases hsat : all_clauses_satisfied cs a with
      | true =>
        right
        refine ⟨true, full_assign n a, a,
          { best_assignment := fill_assignment n a, best_score := (cs.length : Int),
            solution := some (fill_assignment n a) },
          btRun_eq_sat fuel hc hsat, bcRun_eq_sat fuel hc hsat, ?_⟩
        intro _
        exact ⟨a, hk, hsat, rfl, rfl⟩
      | false =>
        cases hnv : next_var n a with
        | none =>
          have hlen : a.length = n := length_eq_of_next_var_none hnd hk hnv
          right
          exact ⟨false, [], a, record_candidate n cs a s, btRun_eq_novar fuel hc hsat hnv,
            bcRun_eq_full fuel hc hsat hlen, fun h => absurd h Bool.false_ne_true⟩
        | some v =>
          have hlen : ¬(a.length = n) := by
            intro hlen
            rw [next_var_none_of_length_eq hnd hk hlen] at hnv
            cases hnv
          rcases next_var_some hnv with ⟨hvnone, hv1, hv2⟩
          have hk1 := keysIn_ainsert hk hvnone hv1 hv2 true
          have hnd1 := nodup_ainsert hnd hvnone true
          rcases ih (ainsert a v true) s hk1 hnd1 with ⟨hbt1, hbc1⟩ |
            ⟨sat1, sol1, a1, s1, hbt1, hbc1, hsucc1⟩
          · left
            exact ⟨btRun_eq_first_none hc hsat hnv hbt1,
              bcRun_eq_first_none hc hsat hlen hnv hbc1⟩
          · cases sat1 with
            | true =>
              right
              exact ⟨true, sol1, a1, s1, btRun_eq_first_true hc hsat hnv hbt1,
                bcRun_eq_first_true hc hsat hlen hnv hbc1, hsucc1⟩
            | false =>
              have ha1 : a1 = ainsert a v true := (btRun_restore n cs fuel _ _ hbt1 rfl).2
              have harg : ainsert (aerase a1 v) v false = ainsert a v false := by
                rw [ha1, aerase_ainsert hvnone]
              have hk2 : ∀ p ∈ ainsert (aerase a1 v) v false, 1 ≤ p.1 ∧ p.1 ≤ n := by
                rw [harg]
                exact keysIn_ainsert hk hvnone hv1 hv2 false
              have hnd2 : (akeys (ainsert (aerase a1 v) v false)).Nodup := by
                rw [harg]
                exact nodup_ainsert hnd hvnone false
              rcases ih (ainsert (aerase a1 v) v false) s1 hk2 hnd2 with ⟨hbt2, hbc2⟩ |
                ⟨sat2, sol2, a2, s2, hbt2, hbc2, hsucc2⟩
              · left
                exact ⟨btRun_eq_second_none hc hsat hnv hbt1 hbt2,
                  bcRun_eq_second_none hc hsat hlen hnv hbc1 hbc2⟩
              · cases sat2 with
                | true =>
                  right
                  exact ⟨true, sol2, a2, s2, btRun_eq_second_true hc hsat hnv hbt1 hbt2,
                    bcRun_eq_second_true hc hsat hlen hnv hbc1 hbc2, hsucc2⟩
                | false =>
                  right
                  exact ⟨false, [], aerase a2 v, s2,
                    btRun_eq_second_false hc hsat hnv hbt1 hbt2,
                    bcRun_eq_second_false hc hsat hlen hnv hbc1 hbc2,
                    fun h => absurd h Bool.false_ne_true⟩

theorem record_candidate_good {n : Nat} {cs : List (List Int)} {c : Assignment} {s : BCState}
    (h : goodState n cs s) : goodState n cs (record_candidate n cs c s) := by
  rw [record_candidate]
  by_cases hgt : (count_satisfied cs (fill_assignment n c) : Int) > s.best_score
  · rw [if_pos hgt]
    right
    exact ⟨rfl, isComplete_fill n c⟩
  · rw [if_neg hgt]
    exact h

theorem record_candidate_ge (n : Nat) (cs : List (List Int)) (c : Assignment) (s : BCState) :
    (record_candidate n cs c s).best_score ≥ (count_satisfied cs (fill_assignment n c) : Int) := by
  rw [record_candidate]
  by_cases hgt : (count_satisfied cs (fill_assignment n c) : Int) > s.best_score
  · rw [if_pos hgt]
  · rw [if_neg hgt]
    omega

theorem bcRun_good (n : Nat) (cs : List (List Int)) :
    ∀ fuel a s r, bcRun n cs fuel a s = some r →
      (∀ p ∈ a, 1 ≤ p.1 ∧ p.1 ≤ n) → goodState n cs s → goodState n cs r.2.2 := by
  intro fuel
  induction fuel with
  | zero =>
    intro a s r h
    cases h
  | succ fuel ih =>
    intro a s r h hk hgood
    cases hc : has_conflict cs a with
    | true =>
      rw [bcRun_eq_conflict fuel hc] at h
      have hr := (Option.some.inj h).symm
      subst hr
      exact record_candidate_good hgood
    | false =>
      cases hsat : all_clauses_satisfied cs a with
      | true =>
        rw [bcRun_eq_sat fuel hc hsat] at h
        have hr := (Option.some.inj h).symm
        subst hr
        right
        refine ⟨?_, isComplete_fill n a⟩
        show (cs.length : Int) = (count_satisfied cs (fill_assignment n a) : Int)
        rw [count_satisfied_fill_of_all hk hsat]
      | false =>
        by_cases hlen : a.length = n
        · rw [bcRun_eq_full fuel hc hsat hlen] at h
          have hr := (Option.some.inj h).symm
          subst hr
          exact record_candidate_good hgood
        · cases hnv : next_var n a with
          | none =>
            rw [bcRun_eq_novar fuel hc hsat hlen hnv] at h
            have hr := (Option.some.inj h).symm
            subst hr
            exact record_candidate_good hgood
          | some v =>
            rcases next_var_some hnv with ⟨hvnone, hv1, hv2⟩
            have hkins : ∀ b : Bool, ∀ p ∈ ainsert a v b, 1 ≤ p.1 ∧ p.1 ≤ n :=
              fun b => keysIn_ainsert hk hvnone hv1 hv2 b
            cases h1 : bcRun n cs fuel (ainsert a v true) s with
            | none =>
              rw [bcRun_eq_first_none hc hsat hlen hnv h1] at h
              cases h
            | some r1 =>
              obtain ⟨found1, a1, s1⟩ := r1
              have hgood1 : goodState n cs s1 := ih _ _ _ h1 (hkins true) hgood
              cases found1 with
              | true =>
                rw [bcRun_eq_first_true hc hsat hlen hnv h1] at h
                have hr := (Option.some.inj h).symm
                subst hr
                exact hgood1
              | false =>
                have ha1 : a1 = ainsert a v true := bcRun_restore n cs fuel _ _ _ h1 rfl
                have harg : ainsert (aerase a1 v) v false = ainsert a v false := by
                  rw [ha1, aerase_ainsert hvnone]
                cases h2 : bcRun n cs fuel (ainsert (aerase a1 v) v false) s1 with
                | none =>
                  rw [bcRun_eq_second_none hc hsat hlen hnv h1 h2] at h
                  cases h
                | some r2 =>
                  obtain ⟨found2, a2, s2⟩ := r2
                  have hgood2 : goodState n cs s2 := by
                    apply ih _ _ _ h2 _ hgood1
                    rw [harg]
                    exact hkins false
                  cases found2 with
                  | true =>
                    rw [bcRun_eq_second_true hc hsat hlen hnv h1 h2] at h
                    have hr := (Option.some.inj h).symm
                    subst hr
                    exact hgood2
                  | false =>
                    rw [bcRun_eq_second_false hc hsat hlen hnv h1 h2] at h
                    have hr := (Option.some.inj h).symm
                    subst hr
                    exact hgood2

theorem bcRun_dominance (n : Nat) (cs : List (List Int)) :
    ∀ fuel a s a' s', bcRun n cs fuel a s = some (false, a', s') →
      s'.best_score ≥ (count_satisfied cs (fill_assignment n a) : Int) := by
  intro fuel
  induction fuel with
  | zero =>
    intro a s a' s' h
    cases h
  | succ fuel ih =>
    intro a s a' s' h
    cases hc : has_conflict cs a with
    | true =>
      rw [bcRun_eq_conflict fuel hc] at h
      have hs' : record_candidate n cs a s = s' :=
        congrArg (fun r => r.2.2) (Option.some.inj h)
      rw [← hs']
      exact record_candidate_ge n cs a s
    | false =>
      cases hsat : all_clauses_satisfied cs a with
      | true =>
        rw [bcRun_eq_sat fuel hc hsat] at h
        have hfalse : true = false := congrArg (fun r => r.1) (Option.some.inj h)
        cases hfalse
      | false =>
        by_cases hlen : a.length = n
        · rw [bcRun_eq_full fuel hc hsat hlen] at h
          have hs' : record_candidate n cs a s = s' :=
            congrArg (fun r => r.2.2) (Option.some.inj h)
          rw [← hs']
          exact record_candidate_ge n cs a s
        · cases hnv : next_var n a with
          | none =>
            rw [bcRun_eq_novar fuel hc hsat hlen hnv] at h
            have hs' : record_candidate n cs a s = s' :=
              congrArg (fun r => r.2.2) (Option.some.inj h)
            rw [← hs']
            exact record_candidate_ge n cs a s
          | some v =>
            rcases next_var_some hnv with ⟨hvnone, hv1, hv2⟩
            cases h1 : bcRun n cs fuel (ainsert a v true) s with
            | none =>
              rw [bcRun_eq_first_none hc hsat hlen hnv h1] at h
              cases h
            | some r1 =>
              obtain ⟨found1, a1, s1⟩ := r1
              cases found1 with
              | true =>
                rw [bcRun_eq_first_true hc hsat hlen hnv h1] at h
                have hfalse : true = false := congrArg (fun r => r.1) (Option.some.inj h)
                cases hfalse
              | false =>
                have ha1 : a1 = ainsert a v true := bcRun_restore n cs fuel _ _ _ h1 rfl
                cases h2 : bcRun n cs fuel (ainsert (aerase a1 v) v false) s1 with
                | none =>
                  rw [bcRun_eq_second_none hc hsat hlen hnv h1 h2] at h
                  cases h
                | some r2 =>
                  obtain ⟨found2, a2, s2⟩ := r2
                  cases found2 with
                  | true =>
                    rw [bcRun_eq_second_true hc hsat hlen hnv h1 h2] at h
                    have hfalse : true = false := congrArg (fun r => r.1) (Option.some.inj h)
                    cases hfalse
                  | false =>
                    rw [bcRun_eq_second_false hc hsat hlen hnv h1 h2] at h
                    have hs' : s2 = s' := congrArg (fun r => r.2.2) (Option.some.inj h)
                    have hrec := ih _ _ _ _ h2
                    rw [ha1, aerase_ainsert hvnone, fill_ainsert_false hvnone] at hrec
                    rw [← hs']
                    exact hrec

/-! Top-level characterization of `sat_backtracking` and `sat_bestcase`. -/

theorem sat_backtracking_cases (n : Nat) (cs : List (List Int)) :
    (∃ sol a', btRun n cs (n + 1) [] = some ((true, sol), a') ∧
      sat_backtracking n cs = (true, sol)) ∨
    sat_backtracking n cs = (false, []) := by
  cases hrun : btRun n cs (n + 1) [] with
  | none =>
    right
    rw [sat_backtracking, hrun]
  | some r =>
    obtain ⟨⟨sat, sol⟩, a'⟩ := r
    cases sat with
    | true =>
      left
      exact ⟨sol, a', rfl, by rw [sat_backtracking, hrun]⟩
    | false =>
      right
      rw [sat_backtracking, hrun]

theorem enumA_length {n : Nat} {l : List Bool} (h : l ∈ enumA n) : l.length = n := by
  induction n generalizing l with
  | zero =>
    rw [enumA] at h
    simp at h
    rw [h]
    rfl
  | succ n ih =>
    rw [enumA] at h
    rcases List.mem_append.1 h with h' | h' <;>
      · rcases List.mem_map.1 h' with ⟨l', hl', rfl⟩
        simp [ih hl']

theorem enumA_complete {n : Nat} {l : List Bool} (h : l.length = n) : l ∈ enumA n := by
  induction n generalizing l with
  | zero =>
    rw [List.length_eq_zero] at h
    subst h
    rw [enumA]
    simp
  | succ n ih =>
    cases l with
    | nil => cases h
    | cons b l' =>
      have hl' : l'.length = n := by
        rw [List.length_cons] at h
        omega
      rw [enumA]
      cases b with
      | false => exact List.mem_append.2 (Or.inl (List.mem_map.2 ⟨l', ih hl', rfl⟩))
      | true => exact List.mem_append.2 (Or.inr (List.mem_map.2 ⟨l', ih hl', rfl⟩))

theorem find?_congr {α : Type} (l : List α) (p q : α → Bool)
    (h : ∀ x ∈ l, p x = q x) : l.find? p = l.find? q := by
  induction l with
  | nil => rfl
  | cons x rest ih =>
    cases hx : q x with
    | true =>
      rw [List.find?_cons_of_pos _ (by rw [h x (List.mem_cons_self _ _), hx]),
        List.find?_cons_of_pos _ hx]
    | false =>
      rw [List.find?_cons_of_neg _ (by rw [h x (List.mem_cons_self _ _), hx]; simp),
        List.find?_cons_of_neg _ (by rw [hx]; simp)]
      exact ih (fun y hy => h y (List.mem_cons_of_mem _ hy))

theorem getD_map_range' {n : Nat} (g : Nat → Bool) {k : Nat} (h1 : 1 ≤ k) (h2 : k ≤ n) :
    ((List.range' 1 n).map g).getD (k - 1) false = g k := by
  have hlt : k - 1 < ((List.range' 1 n).map g).length := by
    simp
    omega
  rw [List.getD_eq_getElem _ _ hlt]
  rw [List.getElem_map]
  rw [List.getElem_range']
  congr 1
  omega

theorem clauseSatF_true_of_witness {f : Nat → Bool} {c : List Int} {lit : Int}
    (hm : lit ∈ c) (h : litSat lit (f lit.natAbs) = true) : clauseSatF f c = true := by
  rw [clauseSatF, List.any_eq_true]
  exact ⟨lit, hm, h⟩

theorem allSatF_listToFun_of_allsat {n : Nat} {cs : List (List Int)} {b : Assignment}
    (hk : ∀ p ∈ b, 1 ≤ p.1 ∧ p.1 ≤ n)
    (hsat : all_clauses_satisfied cs b = true) :
    allSatF (listToFun ((List.range' 1 n).map (fun k => (alookup b k).getD false))) cs
      = true := by
  rw [allSatF, List.all_eq_true]
  intro c hc
  rcases (eval_clause_some_true_iff c b).1 ((all_clauses_satisfied_iff cs b).1 hsat c hc) with
    ⟨lit, hm, v, hv, hs⟩
  have hkr := key_range_of_some hk hv
  apply clauseSatF_true_of_witness hm
  rw [listToFun, getD_map_range' _ hkr.1 hkr.2, hv]
  exact hs

theorem root_align (n : Nat) (cs : List (List Int)) :
    ∃ sat sol a' s', btRun n cs (n + 1) [] = some ((sat, sol), a') ∧
      bcRun n cs (n + 1) [] ⟨[], -1, none⟩ = some (sat, a', s') ∧
      (sat = true → ∃ b : Assignment, (∀ p ∈ b, 1 ≤ p.1 ∧ p.1 ≤ n) ∧
        all_clauses_satisfied cs b = true ∧
        sol = full_assign n b ∧ s'.solution = some (fill_assignment n b)) := by
  rcases bt_bc_align n cs (n + 1) [] ⟨[], -1, none⟩ (by intro p hp; cases hp)
    (by rw [akeys]; simp) with ⟨hbt, _⟩ | h
  · exfalso
    have hsome := btRun_isSome n cs (n + 1) [] (by rw [uc_nil]; omega)
    rw [hbt] at hsome
    cases hsome
  · exact h

theorem sat_bestcase_true_eq {n : Nat} {cs : List (List Int)} {a' : Assignment} {s' : BCState}
    {sol : Assignment}
    (hrun : bcRun n cs (n + 1) [] ⟨[], -1, none⟩ = some (true, a', s'))
    (hsol : s'.solution = some sol) :
    sat_bestcase n cs = (true, sol) := by
  rw [sat_bestcase, hrun]
  dsimp only
  rw [hsol]

theorem sat_bestcase_false_eq {n : Nat} {cs : List (List Int)} {a' : Assignment} {s' : BCState}
    (hrun : bcRun n cs (n + 1) [] ⟨[], -1, none⟩ = some (false, a', s')) :
    sat_bestcase n cs = (false,
      if s'.best_assignment.isEmpty then (List.range' 1 n).map (fun v => (v, false))
      else s'.best_assignment) := by
  rw [sat_bestcase, hrun]

/-! Step equations and lemmas for `sat_bruteforce`'s `dfs` and `evaluate_res`. -/

theorem dfs_eq_leaf {n : Nat} {cs : List (List Int)} {fuel i : Nat} {res : Assignment}
    (h : i > n) :
    dfs n cs (fuel + 1) i res = (evaluate_res res cs).map (fun r => (r, res)) := by
  rw [dfs, if_pos h]

theorem dfs_eq_var {n : Nat} {cs : List (List Int)} {fuel i : Nat} {res : Assignment}
    (h : ¬(i > n)) :
    dfs n cs (fuel + 1) i res =
      match dfs n cs fuel (i + 1) (ainsert res i false) with
      | none => none
      | some ((ok, sol), res1) =>
        if ok then some ((true, sol), res1)
        else
          match dfs n cs fuel (i + 1) (ainsert res1 i true) with
          | none => none
          | some ((ok2, sol2), res2) =>
            if ok2 then some ((true, sol2), res2)
            else some ((false, []), res2) := by
  rw [dfs, if_neg h]

theorem dfs_eq_first_none {n : Nat} {cs : List (List Int)} {fuel i : Nat} {res : Assignment}
    (h : ¬(i > n)) (h1 : dfs n cs fuel (i + 1) (ainsert res i false) = none) :
    dfs n cs (fuel + 1) i res = none := by
  rw [dfs_eq_var h, h1]

theorem dfs_eq_first_true {n : Nat} {cs : List (List Int)} {fuel i : Nat}
    {res sol res1 : Assignment} (h : ¬(i > n))
    (h1 : dfs n cs fuel (i + 1) (ainsert res i false) = some ((true, sol), res1)) :
    dfs n cs (fuel + 1) i res = some ((true, sol), res1) := by
  rw [dfs_eq_var h, h1]
  rfl

theorem dfs_eq_second_none {n : Nat} {cs : List (List Int)} {fuel i : Nat}
    {res sol1 res1 : Assignment} (h : ¬(i > n))
    (h1 : dfs n cs fuel (i + 1) (ainsert res i false) = some ((false, sol1), res1))
    (h2 : dfs n cs fuel (i + 1) (ainsert res1 i true) = none) :
    dfs n cs (fuel + 1) i res = none := by
  rw [dfs_eq_var h, h1]
  dsimp only
  rw [h2]
  rfl

theorem dfs_eq_second_true {n : Nat} {cs : List (List Int)} {fuel i : Nat}
    {res sol1 res1 sol2 res2 : Assignment} (h : ¬(i > n))
    (h1 : dfs n cs fuel (i + 1) (ainsert res i false) = some ((false, sol1), res1))
    (h2 : dfs n cs fuel (i + 1) (ainsert res1 i true) = some ((true, sol2), res2)) :
    dfs n cs (fuel + 1) i res = some ((true, sol2), res2) := by
  rw [dfs_eq_var h, h1]
  dsimp only
  rw [h2]
  rfl

theorem dfs_eq_second_false {n : Nat} {cs : List (List Int)} {fuel i : Nat}
    {res sol1 res1 sol2 res2 : Assignment} (h : ¬(i > n))
    (h1 : dfs n cs fuel (i + 1) (ainsert res i false) = some ((false, sol1), res1))
    (h2 : dfs n cs fuel (i + 1) (ainsert res1 i true) = some ((false, sol2), res2)) :
    dfs n cs (fuel + 1) i res = some ((false, []), res2) := by
  rw [dfs_eq_var h, h1]
  dsimp only
  rw [h2]
  rfl

theorem checkClause_cons_none {a : Assignment} {lit : Int} (rest : List Int)
    (hl : alookup a lit.natAbs = none) : checkClause a (lit :: rest) = none := by
  rw [checkClause, hl]

theorem checkClause_cons_some {a : Assignment} {lit : Int} {val : Bool} (rest : List Int)
    (hl : alookup a lit.natAbs = some val) :
    checkClause a (lit :: rest) =
      if litSat lit val = true then some true else checkClause a rest := by
  rw [checkClause, hl]

theorem checkClause_true_sound {a : Assignment} {c : List Int} :
    checkClause a c = some true →
      ∃ lit ∈ c, ∃ v, alookup a lit.natAbs = some v ∧ litSat lit v = true := by
  induction c with
  | nil =>
    intro h
    have : false = true := Option.some.inj h
    cases this
  | cons lit rest ih =>
    intro h
    cases hl : alookup a lit.natAbs with
    | none =>
      rw [checkClause_cons_none rest hl] at h
      cases h
    | some val =>
      rw [checkClause_cons_some rest hl] at h
      by_cases hs : litSat lit val = true
      · exact ⟨lit, List.mem_cons_self _ _, val, hl, hs⟩
      · rw [if_neg hs] at h
        rcases ih h with ⟨l, hm, v, hv, hsv⟩
        exact ⟨l, List.mem_cons_of_mem _ hm, v, hv, hsv⟩

theorem checkClause_of_assigned {a : Assignment} {c : List Int}
    (h : ∀ lit ∈ c, (alookup a lit.natAbs).isSome = true) :
    checkClause a c = some (clauseSatF (fun k => (alookup a k).getD false) c) := by
  induction c with
  | nil => rw [checkClause, clauseSatF]; rfl
  | cons lit rest ih =>
    cases hl : alookup a lit.natAbs with
    | none =>
      have := h lit (List.mem_cons_self _ _)
      rw [hl] at this
      cases this
    | some val =>
      rw [checkClause_cons_some rest hl]
      by_cases hs : litSat lit val = true
      · rw [if_pos hs]
        simp [clauseSatF, List.any_cons, hl, hs]
      · have hs' : litSat lit val = false := by
          revert hs; cases litSat lit val <;> simp
        rw [if_neg hs, ih (fun l hm => h l (List.mem_cons_of_mem _ hm))]
        simp [clauseSatF, List.any_cons, hl, hs']

theorem evaluate_res_cons_err {a : Assignment} {c : List Int} (rest : List (List Int))
    (hcc : checkClause a c = none) : evaluate_res a (c :: rest) = none := by
  rw [evaluate_res, hcc]

theorem evaluate_res_cons_true {a : Assignment} {c : List Int} (rest : List (List Int))
    (hcc : checkClause a c = some true) :
    evaluate_res a (c :: rest) = evaluate_res a rest := by
  rw [evaluate_res, hcc]

theorem evaluate_res_cons_false {a : Assignment} {c : List Int} (rest : List (List Int))
    (hcc : checkClause a c = some false) : evaluate_res a (c :: rest) = some (false, []) := by
  rw [evaluate_res, hcc]

theorem evaluate_res_true_sound {a : Assignment} {cs : List (List Int)} {A : Assignment} :
    evaluate_res a cs = some (true, A) →
      A = a ∧ ∀ c ∈ cs, checkClause a c = some true := by
  induction cs with
  | nil =>
    intro h
    have hA : a = A := congrArg (fun r => r.2) (Option.some.inj h)
    exact ⟨hA.symm, by intro c hc; cases hc⟩
  | cons c rest ih =>
    intro h
    cases hcc : checkClause a c with
    | none =>
      rw [evaluate_res_cons_err rest hcc] at h
      cases h
    | some b =>
      cases b with
      | true =>
        rw [evaluate_res_cons_true rest hcc] at h
        rcases ih h with ⟨hA, hrest⟩
        refine ⟨hA, ?_⟩
        intro c' hc'
        rcases List.mem_cons.1 hc' with rfl | hm
        · exact hcc
        · exact hrest c' hm
      | false =>
        rw [evaluate_res_cons_false rest hcc] at h
        have : false = true := congrArg (fun r => r.1) (Option.some.inj h)
        cases this

theorem evaluate_res_false_shape {a : Assignment} {cs : List (List Int)} {A : Assignment} :
    evaluate_res a cs = some (false, A) → A = [] := by
  induction cs with
  | nil =>
    intro h
    have : true = false := congrArg (fun r => r.1) (Option.some.inj h)
    cases this
  | cons c rest ih =>
    intro h
    cases hcc : checkClause a c with
    | none =>
      rw [evaluate_res_cons_err rest hcc] at h
      cases h
    | some b =>
      cases b with
      | true =>
        rw [evaluate_res_cons_true rest hcc] at h
        exact ih h
      | false =>
        rw [evaluate_res_cons_false rest hcc] at h
        exact (congrArg (fun r => r.2) (Option.some.inj h)).symm

theorem evaluate_res_of_assigned {a : Assignment} {cs : List (List Int)}
    (h : ∀ c ∈ cs, ∀ lit ∈ c, (alookup a lit.natAbs).isSome = true) :
    evaluate_res a cs =
      if allSatF (fun k => (alookup a k).getD false) cs then some (true, a)
      else some (false, []) := by
  induction cs with
  | nil => rw [evaluate_res, allSatF]; rfl
  | cons c rest ih =>
    have hcheck := checkClause_of_assigned (h c (List.mem_cons_self _ _))
    cases hcsat : clauseSatF (fun k => (alookup a k).getD false) c with
    | false =>
      rw [hcsat] at hcheck
      rw [evaluate_res_cons_false rest hcheck]
      have hall : allSatF (fun k => (alookup a k).getD false) (c :: rest) = false := by
        rw [allSatF, List.all_cons, hcsat]
        rfl
      rw [hall]
      rfl
    | true =>
      rw [hcsat] at hcheck
      rw [evaluate_res_cons_true rest hcheck,
        ih (fun c' hc' => h c' (List.mem_cons_of_mem _ hc'))]
      have hall : allSatF (fun k => (alookup a k).getD false) (c :: rest)
          = allSatF (fun k => (alookup a k).getD false) rest := by
        rw [allSatF, List.all_cons, hcsat, allSatF]
        rfl
      rw [hall]

theorem keysIn_ainsert_any {n : Nat} {a : Assignment} {k : Nat}
    (hk : ∀ p ∈ a, 1 ≤ p.1 ∧ p.1 ≤ n) (h1 : 1 ≤ k) (h2 : k ≤ n) (v : Bool) :
    ∀ p ∈ ainsert a k v, 1 ≤ p.1 ∧ p.1 ≤ n := by
  intro p hp
  rw [ainsert] at hp
  split at hp
  · rcases List.mem_map.1 hp with ⟨q, hq, rfl⟩
    by_cases hqk : q.1 = k
    · rw [if_pos hqk]
      exact ⟨h1, h2⟩
    · rw [if_neg hqk]
      exact hk q hq
  · rcases List.mem_append.1 hp with hp' | hp'
    · exact hk p hp'
    · simp at hp'
      subst hp'
      exact ⟨h1, h2⟩

theorem dfs_state (n : Nat) (cs : List (List Int)) :
    ∀ fuel i res r res', dfs n cs fuel i res = some (r, res') →
      1 ≤ i →
      (∀ p ∈ res, 1 ≤ p.1 ∧ p.1 ≤ n) →
      (∀ k, 1 ≤ k → k < i → (alookup res k).isSome = true) →
      (∀ p ∈ res', 1 ≤ p.1 ∧ p.1 ≤ n) ∧
        (∀ k, k < i → alookup res' k = alookup res k) ∧
        (∀ k, 1 ≤ k → k ≤ n → (alookup res' k).isSome = true) := by
  intro fuel
  induction fuel with
  | zero =>
    intro i res r res' h
    cases h
  | succ fuel ih =>
    intro i res r res' h hi h1 h2
    by_cases hleaf : i > n
    · rw [dfs_eq_leaf hleaf] at h
      cases heval : evaluate_res res cs with
      | none =>
        rw [heval] at h
        cases h
      | some er =>
        rw [heval] at h
        have hres' : res = res' := congrArg (fun x => x.2) (Option.some.inj h)
        subst hres'
        refine ⟨h1, fun k _ => rfl, ?_⟩
        intro k hk1 hk2
        exact h2 k hk1 (by omega)
    · have hii : i ≤ n := by omega
      cases h1c : dfs n cs fuel (i + 1) (ainsert res i false) with
      | none =>
        rw [dfs_eq_first_none hleaf h1c] at h
        cases h
      | some r1 =>
        obtain ⟨⟨ok, sol⟩, res1⟩ := r1
        have hk1' : ∀ p ∈ ainsert res i false, 1 ≤ p.1 ∧ p.1 ≤ n :=
          keysIn_ainsert_any h1 hi hii false
        have h2' : ∀ k, 1 ≤ k → k < i + 1 → (alookup (ainsert res i false) k).isSome = true := by
          intro k hk1 hk2
          by_cases hki : k = i
          · subst hki
            rw [alookup_ainsert_self]
            rfl
          · rw [alookup_ainsert_ne _ _ _ hki]
            exact h2 k hk1 (by omega)
        have hst1 := ih (i + 1) (ainsert res i false) _ _ h1c (by omega) hk1' h2'
        cases ok with
        | true =>
          rw [dfs_eq_first_true hleaf h1c] at h
          have hres' : res1 = res' := congrArg (fun x => x.2) (Option.some.inj h)
          subst hres'
          refine ⟨hst1.1, ?_, hst1.2.2⟩
          intro k hk
          rw [hst1.2.1 k (by omega)]
          exact alookup_ainsert_ne _ _ _ (by omega)
        | false =>
          have hk2' : ∀ p ∈ ainsert res1 i true, 1 ≤ p.1 ∧ p.1 ≤ n :=
            keysIn_ainsert_any hst1.1 hi hii true
          have h2'' : ∀ k, 1 ≤ k → k < i + 1 →
              (alookup (ainsert res1 i true) k).isSome = true := by
            intro k hk1 hk2
            by_cases hki : k = i
            · subst hki
              rw [alookup_ainsert_self]
              rfl
            · rw [alookup_ainsert_ne _ _ _ hki, hst1.2.1 k (by omega),
                alookup_ainsert_ne _ _ _ hki]
              exact h2 k hk1 (by omega)
          cases h2c : dfs n cs fuel (i + 1) (ainsert res1 i true) with
          | none =>
            rw [dfs_eq_second_none hleaf h1c h2c] at h
            cases h
          | some r2 =>
            obtain ⟨⟨ok2, sol2⟩, res2⟩ := r2
            have hst2 := ih (i + 1) (ainsert res1 i true) _ _ h2c (by omega) hk2' h2''
            have hlow : ∀ k, k < i → alookup res2 k = alookup res k := by
              intro k hk
              rw [hst2.2.1 k (by omega), alookup_ainsert_ne _ _ _ (by omega),
                hst1.2.1 k (by omega), alookup_ainsert_ne _ _ _ (by omega)]
            cases ok2 with
            | true =>
              rw [dfs_eq_second_true hleaf h1c h2c] at h
              have hres' : res2 = res' := congrArg (fun x => x.2) (Option.some.inj h)
              subst hres'
              exact ⟨hst2.1, hlow, hst2.2.2⟩
            | false =>
              rw [dfs_eq_second_false hleaf h1c h2c] at h
              have hres' : res2 = res' := congrArg (fun x => x.2) (Option.some.inj h)
              subst hres'
              exact ⟨hst2.1, hlow, hst2.2.2⟩

theorem dfs_true_sound (n : Nat) (cs : List (List Int)) :
    ∀ fuel i res A res', dfs n cs fuel i res = some ((true, A), res') →
      1 ≤ i →
      (∀ p ∈ res, 1 ≤ p.1 ∧ p.1 ≤ n) →
      (∀ k, 1 ≤ k → k < i → (alookup res k).isSome = true) →
      isComplete n A = true ∧
        ∀ c ∈ cs, ∃ lit ∈ c, ∃ v, alookup A lit.natAbs = some v ∧ litSat lit v = true := by
  intro fuel
  induction fuel with
  | zero =>
    intro i res A res' h
    cases h
  | succ fuel ih =>
    intro i res A res' h hi h1 h2
    by_cases hleaf : i > n
    · rw [dfs_eq_leaf hleaf] at h
      cases heval : evaluate_res res cs with
      | none =>
        rw [heval] at h
        cases h
      | some er =>
        rw [heval] at h
        have her : er = (true, A) := congrArg (fun x => x.1) (Option.some.inj h)
        subst her
        rcases evaluate_res_true_sound heval with ⟨hA, hall⟩
        subst hA
        constructor
        · rw [isComplete_iff]
          refine ⟨?_, h1⟩
          intro k hk1 hk2
          exact h2 k hk1 (by omega)
        · intro c hc
          exact checkClause_true_sound (hall c hc)
    · have hii : i ≤ n := by omega
      cases h1c : dfs n cs fuel (i + 1) (ainsert res i false) with
      | none =>
        rw [dfs_eq_first_none hleaf h1c] at h
        cases h
      | some r1 =>
        obtain ⟨⟨ok, sol⟩, res1⟩ := r1
        have hk1' : ∀ p ∈ ainsert res i false, 1 ≤ p.1 ∧ p.1 ≤ n :=
          keysIn_ainsert_any h1 hi hii false
        have h2' : ∀ k, 1 ≤ k → k < i + 1 → (alookup (ainsert res i false) k).isSome = true := by
          intro k hk1 hk2
          by_cases hki : k = i
          · subst hki
            rw [alookup_ainsert_self]
            rfl
          · rw [alookup_ainsert_ne _ _ _ hki]
            exact h2 k hk1 (by omega)
        cases ok with
        | true =>
          rw [dfs_eq_first_true hleaf h1c] at h
          have hsol : sol = A := congrArg (fun x => x.1.2) (Option.some.inj h)
          subst hsol
          exact ih (i + 1) (ainsert res i false) _ _ h1c (by omega) hk1' h2'
        | false =>
          have hst1 := dfs_state n cs fuel (i + 1) (ainsert res i false) _ _ h1c
            (by omega) hk1' h2'
          have hk2' : ∀ p ∈ ainsert res1 i true, 1 ≤ p.1 ∧ p.1 ≤ n :=
            keysIn_ainsert_any hst1.1 hi hii true
          have h2'' : ∀ k, 1 ≤ k → k < i + 1 →
              (alookup (ainsert res1 i true) k).isSome = true := by
            intro k hk1 hk2
            by_cases hki : k = i
            · subst hki
              rw [alookup_ainsert_self]
              rfl
            · rw [alookup_ainsert_ne _ _ _ hki, hst1.2.1 k (by omega),
                alookup_ainsert_ne _ _ _ hki]
              exact h2 k hk1 (by omega)
          cases h2c : dfs n cs fuel (i + 1) (ainsert res1 i true) with
          | none =>
            rw [dfs_eq_second_none hleaf h1c h2c] at h
            cases h
          | some r2 =>
            obtain ⟨⟨ok2, sol2⟩, res2⟩ := r2
            cases ok2 with
            | true =>
              rw [dfs_eq_second_true hleaf h1c h2c] at h
              have hsol : sol2 = A := congrArg (fun x => x.1.2) (Option.some.inj h)
              subst hsol
              exact ih (i + 1) (ainsert res1 i true) _ _ h2c (by omega) hk2' h2''
            | false =>
              rw [dfs_eq_second_false hleaf h1c h2c] at h
              have : false = true := congrArg (fun x => x.1.1) (Option.some.inj h)
              cases this

theorem dfs_false_shape (n : Nat) (cs : List (List Int)) :
    ∀ fuel i res A res', dfs n cs fuel i res = some ((false, A), res') → A = [] := by
  intro fuel
  induction fuel with
  | zero =>
    intro i res A res' h
    cases h
  | succ fuel ih =>
    intro i res A res' h
    by_cases hleaf : i > n
    · rw [dfs_eq_leaf hleaf] at h
      cases heval : evaluate_res res cs with
      | none =>
        rw [heval] at h
        cases h
      | some er =>
        rw [heval] at h
        have her : er = (false, A) := congrArg (fun x => x.1) (Option.some.inj h)
        subst her
        exact evaluate_res_false_shape heval
    · cases h1c : dfs n cs fuel (i + 1) (ainsert res i false) with
      | none =>
        rw [dfs_eq_first_none hleaf h1c] at h
        cases h
      | some r1 =>
        obtain ⟨⟨ok, sol⟩, res1⟩ := r1
        cases ok with
        | true =>
          rw [dfs_eq_first_true hleaf h1c] at h
          have : true = false := congrArg (fun x => x.1.1) (Option.some.inj h)
          cases this
        | false =>
          cases h2c : dfs n cs fuel (i + 1) (ainsert res1 i true) with
          | none =>
            rw [dfs_eq_second_none hleaf h1c h2c] at h
            cases h
          | some r2 =>
            obtain ⟨⟨ok2, sol2⟩, res2⟩ := r2
            cases ok2 with
            | true =>
              rw [dfs_eq_second_true hleaf h1c h2c] at h
              have : true = false := congrArg (fun x => x.1.1) (Option.some.inj h)
              cases this
            | false =>
              rw [dfs_eq_second_false hleaf h1c h2c] at h
              exact (congrArg (fun x => x.1.2) (Option.some.inj h)).symm

theorem any_congr' {α : Type} (l : List α) (p q : α → Bool) (h : ∀ x ∈ l, p x = q x) :
    l.any p = l.any q := by
  induction l with
  | nil => rfl
  | cons x rest ih =>
    rw [List.any_cons, List.any_cons, h x (List.mem_cons_self _ _),
      ih (fun y hy => h y (List.mem_cons_of_mem _ hy))]

theorem all_congr' {α : Type} (l : List α) (p q : α → Bool) (h : ∀ x ∈ l, p x = q x) :
    l.all p = l.all q := by
  induction l with
  | nil => rfl
  | cons x rest ih =>
    rw [List.all_cons, List.all_cons, h x (List.mem_cons_self _ _),
      ih (fun y hy => h y (List.mem_cons_of_mem _ hy))]

theorem extFun_ainsert_false {res : Assignment} {i : Nat} (s : List Bool) :
    extFun (ainsert res i false) (i + 1) s = extFun res i (false :: s) := by
  funext k
  simp only [extFun]
  by_cases hk : k < i
  · rw [if_pos (by omega : k < i + 1), if_pos hk, alookup_ainsert_ne _ _ _ (by omega)]
  · by_cases hki : k = i
    · subst hki
      rw [if_pos (by omega : k < k + 1), if_neg hk, alookup_ainsert_self]
      simp
    · have hk' : ¬(k < i + 1) := by omega
      rw [if_neg hk', if_neg hk]
      obtain ⟨m, hm⟩ : ∃ m, k - i = m + 1 := ⟨k - i - 1, by omega⟩
      rw [hm, List.getD_cons_succ]
      congr 1
      omega

theorem extFun_ainsert_true {res res1 : Assignment} {i : Nat}
    (hlow : ∀ k, k < i → alookup res1 k = alookup res k) (s : List Bool) :
    extFun (ainsert res1 i true) (i + 1) s = extFun res i (true :: s) := by
  funext k
  simp only [extFun]
  by_cases hk : k < i
  · rw [if_pos (by omega : k < i + 1), if_pos hk, alookup_ainsert_ne _ _ _ (by omega),
      hlow k hk]
  · by_cases hki : k = i
    · subst hki
      rw [if_pos (by omega : k < k + 1), if_neg hk, alookup_ainsert_self]
      simp
    · have hk' : ¬(k < i + 1) := by omega
      rw [if_neg hk', if_neg hk]
      obtain ⟨m, hm⟩ : ∃ m, k - i = m + 1 := ⟨k - i - 1, by omega⟩
      rw [hm, List.getD_cons_succ]
      congr 1
      omega

theorem dfs_master (n : Nat) (cs : List (List Int)) (hin : inRange n cs) :
    ∀ d i res, i + d = n + 1 → 1 ≤ i →
      (∀ p ∈ res, 1 ≤ p.1 ∧ p.1 ≤ n) →
      (∀ k, 1 ≤ k → k < i → (alookup res k).isSome = true) →
      ∀ fuel, d < fuel →
      ∃ res',
        match (enumA d).find? (fun s => allSatF (extFun res i s) cs) with
        | some s₀ => ∃ A, dfs n cs fuel i res = some ((true, A), res') ∧
            isComplete n A = true ∧
            ∀ k, 1 ≤ k → k ≤ n → alookup A k = some (extFun res i s₀ k)
        | none => dfs n cs fuel i res = some ((false, []), res') := by
  intro d
  induction d with
  | zero =>
    intro i res hd hi h1 h2 fuel hfuel
    have hileaf : i > n := by omega
    obtain ⟨fuel', rfl⟩ : ∃ fuel', fuel = fuel' + 1 := ⟨fuel - 1, by omega⟩
    have hassigned : ∀ c ∈ cs, ∀ lit ∈ c, (alookup res lit.natAbs).isSome = true := by
      intro c hc lit hm
      exact h2 _ (hin c hc lit hm).1 (by have := (hin c hc lit hm).2; omega)
    have heval := evaluate_res_of_assigned hassigned
    have hfun : extFun res i [] = fun k => (alookup res k).getD false := by
      funext k
      simp only [extFun]
      by_cases hk : k < i
      · rw [if_pos hk]
      · rw [if_neg hk]
        cases hres : alookup res k with
        | none => simp
        | some b =>
          exfalso
          have := key_range_of_some h1 hres
          omega
    refine ⟨res, ?_⟩
    rw [show enumA 0 = [[]] from rfl]
    cases hsat : allSatF (extFun res i []) cs with
    | true =>
      rw [List.find?_cons_of_pos _ (by exact hsat)]
      refine ⟨res, ?_, ?_, ?_⟩
      · rw [dfs_eq_leaf hileaf, heval]
        rw [hfun] at hsat
        rw [if_pos hsat]
        rfl
      · rw [isComplete_iff]
        exact ⟨fun k hk1 hk2 => h2 k hk1 (by omega), h1⟩
      · intro k hk1 hk2
        have hks := h2 k hk1 (by omega)
        rw [hfun]
        show alookup res k = some ((alookup res k).getD false)
        cases hres : alookup res k with
        | none =>
          rw [hres] at hks
          cases hks
        | some b => rfl
    | false =>
      rw [List.find?_cons_of_neg _ (by rw [hsat]; simp)]
      rw [show ([] : List (List Bool)).find? (fun s => allSatF (extFun res i s) cs) = none
        from rfl]
      rw [dfs_eq_leaf hileaf, heval]
      rw [hfun] at hsat
      rw [if_neg (by rw [hsat]; simp)]
      rfl
  | succ d ihd =>
    intro i res hd hi h1 h2 fuel hfuel
    have hleaf : ¬(i > n) := by omega
    obtain ⟨fuel', rfl⟩ : ∃ fuel', fuel = fuel' + 1 := ⟨fuel - 1, by omega⟩
    have hk1' : ∀ p ∈ ainsert res i false, 1 ≤ p.1 ∧ p.1 ≤ n :=
      keysIn_ainsert_any h1 hi (by omega) false
    have h2' : ∀ k, 1 ≤ k → k < i + 1 → (alookup (ainsert res i false) k).isSome = true := by
      intro k hk1 hk2
      by_cases hki : k = i
      · subst hki
        rw [alookup_ainsert_self]
        rfl
      · rw [alookup_ainsert_ne _ _ _ hki]
        exact h2 k hk1 (by omega)
    rcases ihd (i + 1) (ainsert res i false) (by omega) (by omega) hk1' h2' fuel'
      (by omega) with ⟨res1, hm1⟩
    have hpred1 : (fun s => allSatF (extFun (ainsert res i false) (i + 1) s) cs)
        = (fun s => allSatF (extFun res i (false :: s)) cs) := by
      funext s
      rw [extFun_ainsert_false]
    rw [hpred1] at hm1
    rw [show enumA (d + 1)
      = ((enumA d).map (fun l => false :: l)) ++ ((enumA d).map (fun l => true :: l))
      from rfl]
    cases hf1 : (enumA d).find? (fun s => allSatF (extFun res i (false :: s)) cs) with
    | some s₀ =>
      rw [hf1] at hm1
      rcases hm1 with ⟨A, hdfs1, hAc, hAl⟩
      refine ⟨res1, ?_⟩
      have hfind : (((enumA d).map (fun l => false :: l))
            ++ ((enumA d).map (fun l => true :: l))).find?
          (fun s => allSatF (extFun res i s) cs) = some (false :: s₀) := by
        rw [List.find?_append, List.find?_map]
        have hcomp : ((fun s => allSatF (extFun res i s) cs) ∘ (fun l => false :: l))
            = (fun s => allSatF (extFun res i (false :: s)) cs) := rfl
        rw [hcomp, hf1]
        rfl
      rw [hfind]
      refine ⟨A, dfs_eq_first_true hleaf hdfs1, hAc, ?_⟩
      intro k hk1 hk2
      rw [← extFun_ainsert_false]
      exact hAl k hk1 hk2
    | none =>
      rw [hf1] at hm1
      have hst1 := dfs_state n cs fuel' (i + 1) (ainsert res i false) _ _ hm1
        (by omega) hk1' h2'
      have hlow1 : ∀ k, k < i → alookup res1 k = alookup res k := by
        intro k hk
        rw [hst1.2.1 k (by omega), alookup_ainsert_ne _ _ _ (by omega)]
      have hk2' : ∀ p ∈ ainsert res1 i true, 1 ≤ p.1 ∧ p.1 ≤ n :=
        keysIn_ainsert_any hst1.1 hi (by omega) true
      have h2'' : ∀ k, 1 ≤ k → k < i + 1 →
          (alookup (ainsert res1 i true) k).isSome = true := by
        intro k hk1 hk2
        by_cases hki : k = i
        · subst hki
          rw [alookup_ainsert_self]
          rfl
        · rw [alookup_ainsert_ne _ _ _ hki, hlow1 k (by omega)]
          exact h2 k hk1 (by omega)
      rcases ihd (i + 1) (ainsert res1 i true) (by omega) (by omega) hk2' h2'' fuel'
        (by omega) with ⟨res2, hm2⟩
      have hpred2 : (fun s => allSatF (extFun (ainsert res1 i true) (i + 1) s) cs)
          = (fun s => allSatF (extFun res i (true :: s)) cs) := by
        funext s
        rw [extFun_ainsert_true hlow1]
      rw [hpred2] at hm2
      have hfirstpart : (((enumA d).map (fun l => false :: l)).find?
          (fun s => allSatF (extFun res i s) cs)) = none := by
        rw [List.find?_map]
        have hcomp : ((fun s => allSatF (extFun res i s) cs) ∘ (fun l => false :: l))
            = (fun s => allSatF (extFun res i (false :: s)) cs) := rfl
        rw [hcomp, hf1]
        rfl
      cases hf2 : (enumA d).find? (fun s => allSatF (extFun res i (true :: s)) cs) with
      | some s₁ =>
        rw [hf2] at hm2
        rcases hm2 with ⟨A, hdfs2, hAc, hAl⟩
        refine ⟨res2, ?_⟩
        have hfind : (((enumA d).map (fun l => false :: l))
              ++ ((enumA d).map (fun l => true :: l))).find?
            (fun s => allSatF (extFun res i s) cs) = some (true :: s₁) := by
          rw [List.find?_append, hfirstpart, Option.none_or, List.find?_map]
          have hcomp : ((fun s => allSatF (extFun res i s) cs) ∘ (fun l => true :: l))
              = (fun s => allSatF (extFun res i (true :: s)) cs) := rfl
          rw [hcomp, hf2]
          rfl
        rw [hfind]
        refine ⟨A, dfs_eq_second_true hleaf hm1 hdfs2, hAc, ?_⟩
        intro k hk1 hk2
        rw [← extFun_ainsert_true hlow1]
        exact hAl k hk1 hk2
      | none =>
        rw [hf2] at hm2
        refine ⟨res2, ?_⟩
        have hfind : (((enumA d).map (fun l => false :: l))
              ++ ((enumA d).map (fun l => true :: l))).find?
            (fun s => allSatF (extFun res i s) cs) = none := by
          rw [List.find?_append, hfirstpart, Option.none_or, List.find?_map]
          have hcomp : ((fun s => allSatF (extFun res i s) cs) ∘ (fun l => true :: l))
              = (fun s => allSatF (extFun res i (true :: s)) cs) := rfl
          rw [hcomp, hf2]
          rfl
        rw [hfind]
        exact dfs_eq_second_false hleaf hm1 hm2

theorem dfs_root (n : Nat) (cs : List (List Int)) (hin : inRange n cs) :
    ∃ res',
      match (enumA n).find? (fun s => allSatF (listToFun s) cs) with
      | some s₀ => ∃ A, dfs n cs (n + 1) 1 [] = some ((true, A), res') ∧
          isComplete n A = true ∧
          ∀ k, 1 ≤ k → k ≤ n → alookup A k = some (listToFun s₀ k)
      | none => dfs n cs (n + 1) 1 [] = some ((false, []), res') := by
  rcases dfs_master n cs hin n 1 [] (by omega) (by omega) (by intro p hp; cases hp)
    (by intro k hk1 hk2; exact absurd hk2 (by omega)) (n + 1) (by omega) with ⟨res', hm⟩
  have hext : ∀ s : List Bool, ∀ k, 1 ≤ k → extFun [] 1 s k = listToFun s k := by
    intro s k hk
    simp only [extFun, listToFun]
    rw [if_neg (by omega)]
  have hpred : ∀ s ∈ enumA n,
      (allSatF (extFun [] 1 s) cs) = allSatF (listToFun s) cs := by
    intro s _
    rw [allSatF, allSatF]
    apply all_congr'
    intro c hc
    rw [clauseSatF, clauseSatF]
    apply any_congr'
    intro lit hm'
    rw [hext s lit.natAbs (hin c hc lit hm').1]
  have hfind := find?_congr (enumA n) _ _ hpred
  rw [hfind] at hm
  refine ⟨res', ?_⟩
  cases hf : (enumA n).find? (fun s => allSatF (listToFun s) cs) with
  | some s₀ =>
    rw [hf] at hm
    rcases hm with ⟨A, hdfs, hAc, hAl⟩
    refine ⟨A, hdfs, hAc, ?_⟩
    intro k hk1 hk2
    rw [← hext s₀ k hk1]
    exact hAl k hk1 hk2
  | none =>
    rw [hf] at hm
    exact hm

theorem sat_bruteforce_found {n : Nat} {cs : List (List Int)} {s₀ : List Bool}
    (hin : inRange n cs)
    (hf : (enumA n).find? (fun s => allSatF (listToFun s) cs) = some s₀) :
    ∃ A, sat_bruteforce n cs = some (true, A) ∧ isComplete n A = true ∧
      ∀ k, 1 ≤ k → k ≤ n → alookup A k = some (listToFun s₀ k) := by
  rcases dfs_root n cs hin with ⟨res', hm⟩
  rw [hf] at hm
  rcases hm with ⟨A, hdfs, hAc, hAl⟩
  refine ⟨A, ?_, hAc, hAl⟩
  rw [sat_bruteforce, hdfs]
  rfl

theorem sat_bruteforce_notfound {n : Nat} {cs : List (List Int)}
    (hin : inRange n cs)
    (hf : (enumA n).find? (fun s => allSatF (listToFun s) cs) = none) :
    sat_bruteforce n cs = some (false, []) := by
  rcases dfs_root n cs hin with ⟨res', hm⟩
  rw [hf] at hm
  rw [sat_bruteforce, hm]
  rfl

theorem sat_bruteforce_true_sound {n : Nat} {cs : List (List Int)} {A : Assignment}
    (h : sat_bruteforce n cs = some (true, A)) :
    isComplete n A = true ∧
      ∀ c ∈ cs, ∃ lit ∈ c, ∃ v, alookup A lit.natAbs = some v ∧ litSat lit v = true := by
  rw [sat_bruteforce] at h
  cases hdfs : dfs n cs (n + 1) 1 [] with
  | none =>
    rw [hdfs] at h
    cases h
  | some r =>
    rw [hdfs] at h
    obtain ⟨⟨ok, sol⟩, res'⟩ := r
    have hok : (ok, sol) = (true, A) := Option.some.inj h
    rw [hok] at hdfs
    exact dfs_true_sound n cs (n + 1) 1 [] A res' hdfs (by omega)
      (by intro p hp; cases hp) (by intro k hk1 hk2; exact absurd hk2 (by omega))

theorem sat_bruteforce_false_shape {n : Nat} {cs : List (List Int)} {A : Assignment}
    (h : sat_bruteforce n cs = some (false, A)) : A = [] := by
  rw [sat_bruteforce] at h
  cases hdfs : dfs n cs (n + 1) 1 [] with
  | none =>
    rw [hdfs] at h
    cases h
  | some r =>
    rw [hdfs] at h
    obtain ⟨⟨ok, sol⟩, res'⟩ := r
    have hok : (ok, sol) = (false, A) := Option.some.inj h
    rw [hok] at hdfs
    exact dfs_false_shape n cs (n + 1) 1 [] A res' hdfs

/-! Solver-level derived lemmas. -/

theorem soundRes_fill {n : Nat} {cs : List (List Int)} {b : Assignment}
    (hk : ∀ p ∈ b, 1 ≤ p.1 ∧ p.1 ≤ n) (hsat : all_clauses_satisfied cs b = true) :
    soundRes n cs (fill_assignment n b) := by
  refine ⟨isComplete_fill n b, ?_⟩
  intro c hc
  rcases (eval_clause_some_true_iff c b).1 ((all_clauses_satisfied_iff cs b).1 hsat c hc) with
    ⟨lit, hm, v, hv, hs⟩
  have hkr := key_range_of_some hk hv
  refine ⟨lit, hm, v, ?_, hs⟩
  rw [alookup_fill, if_pos hkr, hv]
  rfl

theorem soundRes_full {n : Nat} {cs : List (List Int)} {b : Assignment}
    (hk : ∀ p ∈ b, 1 ≤ p.1 ∧ p.1 ≤ n) (hsat : all_clauses_satisfied cs b = true) :
    soundRes n cs (full_assign n b) := by
  refine ⟨isComplete_full_assign hk, ?_⟩
  intro c hc
  rcases (eval_clause_some_true_iff c b).1 ((all_clauses_satisfied_iff cs b).1 hsat c hc) with
    ⟨lit, hm, v, hv, hs⟩
  have hkr := key_range_of_some hk hv
  refine ⟨lit, hm, v, ?_, hs⟩
  rw [alookup_full_assign hk, alookup_fill, if_pos hkr, hv]
  rfl

theorem sat_backtracking_true_sound {n : Nat} {cs : List (List Int)} {sol : Assignment}
    (h : sat_backtracking n cs = (true, sol)) :
    ∃ b : Assignment, (∀ p ∈ b, 1 ≤ p.1 ∧ p.1 ≤ n) ∧
      all_clauses_satisfied cs b = true ∧ sol = full_assign n b := by
  rcases sat_backtracking_cases n cs with ⟨sol', a', hrun, heq⟩ | heq
  · rw [heq] at h
    have hsol : sol' = sol := congrArg (fun r => r.2) h
    subst hsol
    exact btRun_success n cs (n + 1) [] sol' a' hrun (by intro p hp; cases hp)
  · rw [heq] at h
    have : false = true := congrArg (fun r => r.1) h
    cases this

theorem sat_backtracking_of_sat {n : Nat} {cs : List (List Int)} (hin : inRange n cs)
    {l : List Bool} (hl : allSatF (listToFun l) cs = true) :
    (sat_backtracking n cs).1 = true := by
  rcases btRun_complete n cs hin (n + 1) [] (by rw [uc_nil]; omega)
    (by intro p hp; cases hp) (listToFun l) (by intro k v hv; cases hv) hl with
    ⟨sol, a', hrun⟩
  have heq : sat_backtracking n cs = (true, sol) := by
    rw [sat_backtracking, hrun]
  rw [heq]

theorem sat_backtracking_unsat {n : Nat} {cs : List (List Int)}
    (hnone : ∀ l ∈ enumA n, allSatF (listToFun l) cs = false) :
    sat_backtracking n cs = (false, []) := by
  rcases sat_backtracking_cases n cs with ⟨sol, a', hrun, heq⟩ | heq
  · exfalso
    rcases btRun_success n cs (n + 1) [] sol a' hrun (by intro p hp; cases hp) with
      ⟨b, hk, hsat, _⟩
    have hmem : ((List.range' 1 n).map (fun k => (alookup b k).getD false)) ∈ enumA n :=
      enumA_complete (by simp)
    have := hnone _ hmem
    rw [allSatF_listToFun_of_allsat hk hsat] at this
    cases this
  · exact heq

theorem sat_bestcase_agree (n : Nat) (cs : List (List Int)) :
    (sat_bestcase n cs).1 = (sat_backtracking n cs).1 ∧
      ((sat_backtracking n cs).1 = true →
        ∀ k, alookup (sat_backtracking n cs).2 k = alookup (sat_bestcase n cs).2 k) := by
  rcases root_align n cs with ⟨sat, sol, a', s', hbt, hbc, hsucc⟩
  cases sat with
  | true =>
    rcases hsucc rfl with ⟨b, hk, hsat, hsol, hsolution⟩
    have hbt' : sat_backtracking n cs = (true, sol) := by
      rw [sat_backtracking, hbt]
    have hbc' : sat_bestcase n cs = (true, fill_assignment n b) :=
      sat_bestcase_true_eq hbc hsolution
    rw [hbt', hbc']
    refine ⟨rfl, ?_⟩
    intro _ k
    show alookup sol k = alookup (fill_assignment n b) k
    rw [hsol]
    exact alookup_full_assign hk k
  | false =>
    have hbt' : sat_backtracking n cs = (false, []) := by
      rw [sat_backtracking, hbt]
    have hbc' := sat_bestcase_false_eq hbc
    rw [hbt', hbc']
    refine ⟨rfl, ?_⟩
    intro hcontra
    cases hcontra

theorem sat_bestcase_complete_out (n : Nat) (cs : List (List Int)) :
    isComplete n (sat_bestcase n cs).2 = true := by
  rcases root_align n cs with ⟨sat, sol, a', s', hbt, hbc, hsucc⟩
  cases sat with
  | true =>
    rcases hsucc rfl with ⟨b, hk, hsat, hsol, hsolution⟩
    rw [sat_bestcase_true_eq hbc hsolution]
    exact isComplete_fill n b
  | false =>
    rw [sat_bestcase_false_eq hbc]
    have hgood : goodState n cs s' :=
      bcRun_good n cs (n + 1) [] ⟨[], -1, none⟩ _ hbc (by intro p hp; cases hp)
        (Or.inl ⟨rfl, rfl⟩)
    by_cases hemp : s'.best_assignment.isEmpty
    · rw [if_pos hemp]
      exact isComplete_allFalse n
    · rw [if_neg hemp]
      rcases hgood with ⟨_, hba⟩ | ⟨_, hcomp⟩
      · exfalso
        exact hemp (by rw [hba]; rfl)
      · exact hcomp

theorem sat_bestcase_unsat_dominance (n : Nat) (cs : List (List Int))
    (hnone : ∀ l ∈ enumA n, allSatF (listToFun l) cs = false) :
    (sat_bestcase n cs).1 = false ∧
      count_satisfied cs (sat_bestcase n cs).2 ≥ count_satisfied cs (allFalse n) := by
  rcases root_align n cs with ⟨sat, sol, a', s', hbt, hbc, hsucc⟩
  have hsatf : sat = false := by
    cases sat with
    | false => rfl
    | true =>
      exfalso
      rcases hsucc rfl with ⟨b, hk, hsat, _, _⟩
      have hmem : ((List.range' 1 n).map (fun k => (alookup b k).getD false)) ∈ enumA n :=
        enumA_complete (by simp)
      have := hnone _ hmem
      rw [allSatF_listToFun_of_allsat hk hsat] at this
      cases this
  subst hsatf
  have hdom := bcRun_dominance n cs (n + 1) [] ⟨[], -1, none⟩ a' s' hbc
  rw [← allFalse_eq_fill_nil] at hdom
  have hgood : goodState n cs s' :=
    bcRun_good n cs (n + 1) [] ⟨[], -1, none⟩ _ hbc (by intro p hp; cases hp)
      (Or.inl ⟨rfl, rfl⟩)
  rw [sat_bestcase_false_eq hbc]
  refine ⟨rfl, ?_⟩
  by_cases hemp : s'.best_assignment.isEmpty
  · rw [if_pos hemp]
    show count_satisfied cs (allFalse n) ≥ count_satisfied cs (allFalse n)
    exact le_refl _
  · rw [if_neg hemp]
    rcases hgood with ⟨hsc, hba⟩ | ⟨hsc, _⟩
    · exfalso
      exact hemp (by rw [hba]; rfl)
    · rw [hsc] at hdom
      show count_satisfied cs s'.best_assignment ≥ count_satisfied cs (allFalse n)
      omega

theorem le_foldr_max {l : List Nat} {a : Nat} (h : a ∈ l) : a ≤ l.foldr Nat.max 0 := by
  induction l with
  | nil => cases h
  | cons x rest ih =>
    rcases List.mem_cons.1 h with rfl | hm
    · exact Nat.le_max_left _ _
    · exact Nat.le_trans (ih hm) (Nat.le_max_right _ _)

theorem count_le_maxScore {n : Nat} {cs : List (List Int)} {A : Assignment}
    (hin : inRange n cs) (hA : isComplete n A = true) :
    count_satisfied cs A ≤ maxScore n cs := by
  rw [count_satisfied_eq_countSatF hin hA]
  have htrans : countSatF (fun k => (alookup A k).getD false) cs
      = countSatF (listToFun ((List.range' 1 n).map (fun k => (alookup A k).getD false))) cs := by
    rw [countSatF, countSatF]
    apply List.countP_congr
    intro c hc
    have hcl : clauseSatF (fun k => (alookup A k).getD false) c
        = clauseSatF (listToFun ((List.range' 1 n).map (fun k => (alookup A k).getD false))) c := by
      rw [clauseSatF, clauseSatF]
      apply any_congr'
      intro lit hm
      rw [listToFun, getD_map_range' _ (hin c hc lit hm).1 (hin c hc lit hm).2]
    rw [hcl]
  rw [htrans, maxScore]
  apply le_foldr_max
  apply List.mem_map.2
  exact ⟨(List.range' 1 n).map (fun k => (alookup A k).getD false),
    enumA_complete (by simp), rfl⟩

theorem sat_bestcase_true_sound {n : Nat} {cs : List (List Int)} {C : Assignment}
    (h : sat_bestcase n cs = (true, C)) :
    ∃ b : Assignment, (∀ p ∈ b, 1 ≤ p.1 ∧ p.1 ≤ n) ∧
      all_clauses_satisfied cs b = true ∧ C = fill_assignment n b := by
  rcases root_align n cs with ⟨sat, sol, a', s', hbt, hbc, hsucc⟩
  cases sat with
  | false =>
    rw [sat_bestcase_false_eq hbc] at h
    have : false = true := congrArg (fun r => r.1) h
    cases this
  | true =>
    rcases hsucc rfl with ⟨b, hk, hsat, _, hsolution⟩
    rw [sat_bestcase_true_eq hbc hsolution] at h
    have hC : fill_assignment n b = C := congrArg (fun r => r.2) h
    exact ⟨b, hk, hsat, hC.symm⟩

/-! The claims. -/

/-- C1: Soundness of every strategy, per strategy.  Whenever `sat_bruteforce`,
`sat_backtracking` or `sat_bestcase` reports satisfiable with an assignment,
that assignment binds exactly the variables `1..n_vars` and every clause
contains at least one literal whose variable's value in the assignment matches
the literal's polarity — each implication holds on its own, for every `n_vars`
and clause list. -/
theorem claim_C1 (n : Nat) (cs : List (List Int)) :
    (∀ A, sat_bruteforce n cs = some (true, A) → soundRes n cs A) ∧
    (∀ B, sat_backtracking n cs = (true, B) → soundRes n cs B) ∧
    (∀ C, sat_bestcase n cs = (true, C) → soundRes n cs C) := by
  refine ⟨?_, ?_, ?_⟩
  · intro A hbf
    rcases sat_bruteforce_true_sound hbf with ⟨hc, hw⟩
    exact ⟨hc, hw⟩
  · intro B hbt
    rcases sat_backtracking_true_sound hbt with ⟨b, hk, hsat, rfl⟩
    exact soundRes_full hk hsat
  · intro C hbc
    rcases sat_bestcase_true_sound hbc with ⟨b, hk, hsat, rfl⟩
    exact soundRes_fill hk hsat

/-- Witness for C1, exercising each strategy's implication separately:
`sat_bruteforce 1 [[1]]` and `sat_bestcase 1 [[1]]` succeed with `{1: True}`,
and `sat_backtracking 1 [[5, -1]]` succeeds with `{1: False}` on an input where
`sat_bruteforce` raises instead — the implications do not share hypotheses. -/
theorem claim_C1_witness :
    soundRes 1 [[1]] [(1, true)] ∧ soundRes 1 [[5, -1]] [(1, false)] ∧
      soundRes 1 [[1]] [(1, true)] :=
  ⟨(claim_C1 1 [[1]]).1 [(1, true)] (by decide),
    (claim_C1 1 [[5, -1]]).2.1 [(1, false)] (by decide),
    (claim_C1 1 [[1]]).2.2 [(1, true)] (by decide)⟩

/-- C2: Completeness of `sat_backtracking` and `sat_bruteforce` on in-range
instances: if some complete assignment (an element of `enumA n_vars`) satisfies
every clause, both report satisfiable; if none does, both return `(false, {})`. -/
theorem claim_C2 (n : Nat) (cs : List (List Int)) (hin : inRange n cs) :
    ((∃ l ∈ enumA n, allSatF (listToFun l) cs = true) →
      (∃ A, sat_bruteforce n cs = some (true, A)) ∧ (sat_backtracking n cs).1 = true) ∧
    ((∀ l ∈ enumA n, allSatF (listToFun l) cs = false) →
      sat_bruteforce n cs = some (false, []) ∧ sat_backtracking n cs = (false, [])) := by
  constructor
  · rintro ⟨l, hl, hsat⟩
    constructor
    · have hf : ((enumA n).find? (fun s => allSatF (listToFun s) cs)).isSome :=
        List.find?_isSome.2 ⟨l, hl, hsat⟩
      cases hfind : (enumA n).find? (fun s => allSatF (listToFun s) cs) with
      | none =>
        rw [hfind] at hf
        cases hf
      | some s₀ =>
        rcases sat_bruteforce_found hin hfind with ⟨A, hA, _, _⟩
        exact ⟨A, hA⟩
    · exact sat_backtracking_of_sat hin hsat
  · intro hnone
    constructor
    · apply sat_bruteforce_notfound hin
      rw [List.find?_eq_none]
      intro l hl
      rw [hnone l hl]
      simp
    · exact sat_backtracking_unsat hnone

/-- Witness for C2 at `n_vars = 1`, `clauses = [[1]]` (in range). -/
theorem claim_C2_witness :
    ((∃ l ∈ enumA 1, allSatF (listToFun l) [[1]] = true) →
      (∃ A, sat_bruteforce 1 [[1]] = some (true, A)) ∧
        (sat_backtracking 1 [[1]]).1 = true) ∧
    ((∀ l ∈ enumA 1, allSatF (listToFun l) [[1]] = false) →
      sat_bruteforce 1 [[1]] = some (false, []) ∧
        sat_backtracking 1 [[1]] = (false, [])) :=
  claim_C2 1 [[1]] (by unfold inRange; decide)

/-- C3 counterexample: for `n_vars = 2`, `clauses = [[-1], [1], [2]]` (in range,
no complete assignment satisfies all three clauses), `sat_bestcase` returns an
assignment satisfying only 1 clause although the maximum over all four complete
assignments is 2 — the claimed equality with the maximum is false. -/
theorem claim_C3_counterexample :
    inRange 2 [[-1], [1], [2]] ∧
    (∀ l ∈ enumA 2, allSatF (listToFun l) [[-1], [1], [2]] = false) ∧
    sat_bestcase 2 [[-1], [1], [2]] = (false, [(1, true), (2, false)]) ∧
    count_satisfied [[-1], [1], [2]] [(1, true), (2, false)] = 1 ∧
    maxScore 2 [[-1], [1], [2]] = 2 :=
  ⟨by unfold inRange; decide, by decide⟩

/-- C3 as amended: for every `n_vars` and in-range clause list with no fully
satisfying assignment, `sat_bestcase` reports unsatisfiable and the number of
clauses satisfied by its returned assignment is at most (not necessarily equal
to) the maximum, over all complete assignments, of the number of satisfied
clauses. -/
theorem claim_C3 (n : Nat) (cs : List (List Int)) (hin : inRange n cs)
    (hnone : ∀ l ∈ enumA n, allSatF (listToFun l) cs = false) :
    (sat_bestcase n cs).1 = false ∧
      count_satisfied cs (sat_bestcase n cs).2 ≤ maxScore n cs := by
  refine ⟨(sat_bestcase_unsat_dominance n cs hnone).1, ?_⟩
  exact count_le_maxScore hin (sat_bestcase_complete_out n cs)

/-- Witness for the amended C3 at the counterexample instance. -/
theorem claim_C3_witness :
    (sat_bestcase 2 [[-1], [1], [2]]).1 = false ∧
      count_satisfied [[-1], [1], [2]] (sat_bestcase 2 [[-1], [1], [2]]).2 ≤
        maxScore 2 [[-1], [1], [2]] :=
  claim_C3 2 [[-1], [1], [2]] (by unfold inRange; decide) (by decide)

/-- C4: Brute-force enumeration order: when at least one satisfying assignment
exists for an in-range instance, `sat_bruteforce` returns the first complete
assignment, in the order of `enumA` (depth-first on ascending variable index,
`false` tried before `true`), that satisfies every clause. -/
theorem claim_C4 (n : Nat) (cs : List (List Int)) (hin : inRange n cs) (l₀ : List Bool)
    (hf : (enumA n).find? (fun s => allSatF (listToFun s) cs) = some l₀) :
    ∃ A, sat_bruteforce n cs = some (true, A) ∧ isComplete n A = true ∧
      ∀ k, 1 ≤ k → k ≤ n → alookup A k = some (listToFun l₀ k) :=
  sat_bruteforce_found hin hf

/-- Witness for C4 at `n_vars = 2`, `clauses = [[1, 2]]`: the first satisfying
assignment in enumeration order is `[false, true]`. -/
theorem claim_C4_witness :
    ∃ A, sat_bruteforce 2 [[1, 2]] = some (true, A) ∧ isComplete 2 A = true ∧
      ∀ k, 1 ≤ k → k ≤ 2 → alookup A k = some (listToFun [false, true] k) :=
  claim_C4 2 [[1, 2]] (by unfold inRange; decide) [false, true] (by decide)

/-- C5: Agreement of best-case with backtracking: `sat_bestcase` reports
satisfiable exactly when `sat_backtracking` does, and when both report
satisfiable the returned assignments are identical as mappings. -/
theorem claim_C5 (n : Nat) (cs : List (List Int)) :
    (sat_bestcase n cs).1 = (sat_backtracking n cs).1 ∧
      ((sat_backtracking n cs).1 = true →
        ∀ k, alookup (sat_backtracking n cs).2 k = alookup (sat_bestcase n cs).2 k) :=
  sat_bestcase_agree n cs

/-- Witness for C5 at `n_vars = 2`, `clauses = [[-1, 2]]`. -/
theorem claim_C5_witness :
    (sat_bestcase 2 [[-1, 2]]).1 = (sat_backtracking 2 [[-1, 2]]).1 ∧
      ((sat_backtracking 2 [[-1, 2]]).1 = true →
        ∀ k, alookup (sat_backtracking 2 [[-1, 2]]).2 k
          = alookup (sat_bestcase 2 [[-1, 2]]).2 k) :=
  claim_C5 2 [[-1, 2]]

/-- C6: Best-case dominance over all-false: when no complete assignment
satisfies all clauses, `sat_bestcase` reports unsatisfiable and its returned
assignment satisfies at least as many clauses as the all-false assignment. -/
theorem claim_C6 (n : Nat) (cs : List (List Int))
    (hnone : ∀ l ∈ enumA n, allSatF (listToFun l) cs = false) :
    (sat_bestcase n cs).1 = false ∧
      count_satisfied cs (sat_bestcase n cs).2 ≥ count_satisfied cs (allFalse n) :=
  sat_bestcase_unsat_dominance n cs hnone

/-- Witness for C6 at the unsatisfiable instance `n_vars = 2`,
`clauses = [[1], [-1]]` (the spec's own scenario). -/
theorem claim_C6_witness :
    (sat_bestcase 2 [[1], [-1]]).1 = false ∧
      count_satisfied [[1], [-1]] (sat_bestcase 2 [[1], [-1]]).2 ≥
        count_satisfied [[1], [-1]] (allFalse 2) :=
  claim_C6 2 [[1], [-1]] (by decide)

/-- C7: Result-shape invariant: an unsatisfiable `sat_bruteforce` or
`sat_backtracking` result carries the empty assignment; a satisfiable result of
any strategy, and any `sat_bestcase` result, carries a complete assignment with
exactly the keys `1..n_vars`. -/
theorem claim_C7 (n : Nat) (cs : List (List Int)) :
    (∀ A, sat_bruteforce n cs = some (false, A) → A = []) ∧
    ((sat_backtracking n cs).1 = false → sat_backtracking n cs = (false, [])) ∧
    (∀ A, sat_bruteforce n cs = some (true, A) → isComplete n A = true) ∧
    ((sat_backtracking n cs).1 = true → isComplete n (sat_backtracking n cs).2 = true) ∧
    isComplete n (sat_bestcase n cs).2 = true := by
  refine ⟨?_, ?_, ?_, ?_, sat_bestcase_complete_out n cs⟩
  · intro A h
    exact sat_bruteforce_false_shape h
  · intro h
    rcases sat_backtracking_cases n cs with ⟨sol, a', _, heq⟩ | heq
    · rw [heq] at h
      simp at h
    · exact heq
  · intro A h
    exact (sat_bruteforce_true_sound h).1
  · intro h
    rcases sat_backtracking_cases n cs with ⟨sol, a', hrun, heq⟩ | heq
    · rw [heq]
      rcases btRun_success n cs (n + 1) [] sol a' hrun (by intro p hp; cases hp) with
        ⟨b, hk, _, rfl⟩
      exact isComplete_full_assign hk
    · rw [heq] at h
      simp at h

/-- Witness for C7 at `n_vars = 2`, `clauses = [[1], [-1]]`. -/
theorem claim_C7_witness :
    (∀ A, sat_bruteforce 2 [[1], [-1]] = some (false, A) → A = []) ∧
    ((sat_backtracking 2 [[1], [-1]]).1 = false →
      sat_backtracking 2 [[1], [-1]] = (false, [])) ∧
    (∀ A, sat_bruteforce 2 [[1], [-1]] = some (true, A) → isComplete 2 A = true) ∧
    ((sat_backtracking 2 [[1], [-1]]).1 = true →
      isComplete 2 (sat_backtracking 2 [[1], [-1]]).2 = true) ∧
    isComplete 2 (sat_bestcase 2 [[1], [-1]]).2 = true :=
  claim_C7 2 [[1], [-1]]

/-- C8 (evidence for the code bug): on malformed input the solvers do not fail
fast.  With `n_vars = 1` and the out-of-range literal `2`, `sat_backtracking`
and `sat_bestcase` return normal results, silently treating the literal as
never satisfiable; `sat_bruteforce` raises `KeyError` (modelled `none`) only
because it reaches the literal — for `[[-1, 5]]` the clause is satisfied by an
earlier literal first and `sat_bruteforce` returns a normal satisfiable result
despite the malformed literal `5`. -/
theorem claim_C8 :
    sat_backtracking 1 [[2]] = (false, []) ∧
    sat_bestcase 1 [[2]] = (false, [(1, true)]) ∧
    sat_bruteforce 1 [[2]] = none ∧
    sat_bruteforce 1 [[-1, 5]] = some (true, [(1, false)]) := by
  decide

/-- C9: `sat_simple` has body `pass`, so it returns Python's `None` for every
input, never a `(satisfiable, assignment)` pair. -/
theorem claim_C9 (n : Nat) (cs : List (List Int)) : sat_simple n cs = none := rfl

/-- C10: Backtrack-restore invariant: whenever the recursive `backtrack` helper
of `sat_backtracking` or of `sat_bestcase` returns a failure result, the
assignment dictionary is exactly as it was at entry (every variable bound
during the call was unbound again). -/
theorem claim_C10 (n : Nat) (cs : List (List Int)) (fuel : Nat) (a : Assignment) :
    (∀ r, btRun n cs fuel a = some r → r.1.1 = false → r.1.2 = [] ∧ r.2 = a) ∧
    (∀ s r, bcRun n cs fuel a s = some r → r.1 = false → r.2.1 = a) :=
  ⟨fun r h hf => btRun_restore n cs fuel a r h hf,
    fun s r h hf => bcRun_restore n cs fuel a s r h hf⟩

/-- Witness for C10 at `n_vars = 1`, `clauses = [[1], [-1]]`, fuel 2: the root
call fails and hands back the empty dictionary it started from. -/
theorem claim_C10_witness :
    ((((false, []), []) : (Bool × Assignment) × Assignment).1.2 = [] ∧
      ((((false, []), []) : (Bool × Assignment) × Assignment)).2 = []) :=
  (claim_C10 1 [[1], [-1]] 2 []).1 ((false, []), []) (by decide) rfl
